import Mathlib

/-!
# Verification of `dataflow_pii_masking.py`

A shallow embedding of the per-record core of the streaming PII-masking
pipeline: the Masking Stage (`MaskPIIFn.process`), the Format Stage
(`FormatForBigQuery.process`), the Write-Result Handler
(`HandleBigQueryErrors.process`), the schema literal from `run`, and the
parts of the Python runtime they rely on (`json.loads` / `json.dumps` with
CPython's default options, `bytes.decode("utf-8")`, `str()`, truthiness,
`in`, item get/set).

Values are modelled by `PyVal`, a mutually inductive JSON-value type.
Python floats are carried as their numeric literal text (`.pyFloat lit`):
float arithmetic and shortest-repr formatting are outside the scope of a
shallow embedding, but keeping the literal lets `json.loads` accept and
reproduce fractional/exponent numbers, including the non-standard `NaN` /
`Infinity` / `-Infinity` constants CPython accepts and emits by default.
-/

/-! ## Characters, digits, decimal and hexadecimal text -/

/-- The whitespace accepted by CPython's `json` between tokens. -/
def jsonWs (c : Char) : Bool := c = ' ' || c = '\t' || c = '\n' || c = '\r'

/-- Decimal digit test, as in the CPython `json` number regex. -/
def decDigit (c : Char) : Bool := '0' ≤ c && c ≤ '9'

/-- Value of a decimal digit character. -/
def decVal (c : Char) : Nat := c.toNat - '0'.toNat

/-- The character for digit `d` (lower-case hex for `10 ≤ d < 16`),
matching CPython's `"0123456789abcdef"` table for `\uXXXX` output. -/
def digitCh (d : Nat) : Char :=
  if d < 10 then Char.ofNat ('0'.toNat + d) else Char.ofNat ('a'.toNat + d - 10)

/-- Decimal digits of `n`, most significant first, pushed onto `acc`.
The fuel (first argument) only bounds the digit count; callers pass more
than any value can need, keeping the recursion structural. -/
def decChars : Nat → Nat → List Char → List Char
  | 0, _, acc => acc
  | f + 1, n, acc =>
    if n < 10 then digitCh n :: acc
    else decChars f (n / 10) (digitCh (n % 10) :: acc)

/-- Decimal text of a natural number, e.g. `natText 45 = "45".data`. -/
def natText (n : Nat) : List Char := decChars (n + 1) n []

/-- Decimal text of a Python integer (CPython `repr`/`json.dumps` form). -/
def intText (n : Int) : List Char :=
  if n < 0 then '-' :: natText n.natAbs else natText n.toNat

/-- Accumulate a run of decimal digits into a value (the reading direction
CPython's `int()` uses on the regex match). -/
def decAccum (a : Nat) : List Char → Nat
  | [] => a
  | c :: t => if decDigit c then decAccum (a * 10 + decVal c) t else a

/-- Value of a digit list (all characters assumed digits). -/
def decValue (l : List Char) : Nat := decAccum 0 l

/-- Split off the longest leading run of decimal digits. -/
def digitSpan : List Char → List Char × List Char
  | [] => ([], [])
  | c :: t =>
    if decDigit c then
      let (d, r) := digitSpan t
      (c :: d, r)
    else ([], c :: t)

/-- Value of a hexadecimal digit, upper or lower case (CPython's `\uXXXX`
escape reader accepts both). -/
def hexDigVal (c : Char) : Option Nat :=
  let n := c.toNat
  if decDigit c then some (n - 48)
  else if 97 ≤ n && n ≤ 102 then some (n - 87)
  else if 65 ≤ n && n ≤ 70 then some (n - 55)
  else none

/-- Four hex digits read big-endian. -/
def hexQuad (a b c d : Char) : Option Nat := do
  let x ← hexDigVal a
  let y ← hexDigVal b
  let z ← hexDigVal c
  let w ← hexDigVal d
  pure (((x * 16 + y) * 16 + z) * 16 + w)

/-- The four hex digit characters of `n < 0x10000`, big-endian. -/
def hexQuadText (n : Nat) : List Char :=
  [digitCh (n / 4096 % 16), digitCh (n / 256 % 16), digitCh (n / 16 % 16), digitCh (n % 16)]

/-! ## Python values

`PyVal` models the values that flow through the pipeline: exactly the
image of `json.loads` (plus what the DoFns add, which stays in that
image). `VList`/`VObj` are explicit list/dict spines so that every
function on values is structurally recursive and kernel-reducible. -/

mutual
inductive PyVal where
  | pyNone : PyVal
  | pyBool (b : Bool) : PyVal
  | pyInt (n : Int) : PyVal
  | pyFloat (lit : String) : PyVal
  | pyStr (s : String) : PyVal
  | pyList (xs : VList) : PyVal
  | pyDict (m : VObj) : PyVal
deriving DecidableEq

inductive VList where
  | nil : VList
  | cons (hd : PyVal) (tl : VList) : VList
deriving DecidableEq

inductive VObj where
  | nil : VObj
  | cons (key : String) (val : PyVal) (tl : VObj) : VObj
deriving DecidableEq
end

/-- Python `dict.__contains__` / `field in record` on a dict. -/
def VObj.hasKey : VObj → String → Bool
  | .nil, _ => false
  | .cons k _ t, f => k = f || t.hasKey f

/-- Python `dict.get` / subscript on a dict whose key is present. -/
def VObj.lookup : VObj → String → Option PyVal
  | .nil, _ => none
  | .cons k v t, f => if k = f then some v else t.lookup f

/-- Python `d[k] = v`: replace in place if the key exists (insertion order
kept, as in CPython 3.7+ dicts), else append at the end. -/
def VObj.set : VObj → String → PyVal → VObj
  | .nil, f, v => .cons f v .nil
  | .cons k w t, f, v => if k = f then .cons k v t else .cons k w (t.set f v)

/-- The keys of a dict, in insertion order. -/
def VObj.keys : VObj → List String
  | .nil => []
  | .cons k _ t => k :: t.keys

/-- The entries of a dict, in insertion order. -/
def VObj.entries : VObj → List (String × PyVal)
  | .nil => []
  | .cons k v t => (k, v) :: t.entries

/-- `dict(pairs)`: successive assignment, so a repeated key keeps its first
position but takes its last value, as CPython's `json` object builder does. -/
def VObj.ofPairs (acc : VObj) : List (String × PyVal) → VObj
  | [] => acc
  | (k, v) :: t => VObj.ofPairs (acc.set k v) t

/-- Python membership `x in xs` for a list, with `==` being structural
equality on JSON-image values. -/
def VList.elem : VList → PyVal → Bool
  | .nil, _ => false
  | .cons h t, v => h = v || t.elem v

/-- List spine from a Lean list. -/
def VList.ofList : List PyVal → VList
  | [] => .nil
  | h :: t => .cons h (VList.ofList t)

/-- Does a float literal denote zero?  True exactly when every mantissa
digit is `0` (so `0.0`, `-0.00`, `0e9` are falsy; `NaN`/`Infinity` are
truthy, as in Python). -/
def floatLitZero (lit : String) : Bool :=
  let mant := lit.data.takeWhile (fun c => c ≠ 'e' && c ≠ 'E')
  mant.any decDigit && mant.all (fun c => c = '0' || c = '.' || c = '-')

/-- Python truthiness (`bool(v)`) on the modelled value domain. -/
def pyTruthy : PyVal → Bool
  | .pyNone => false
  | .pyBool b => b
  | .pyInt n => n != 0
  | .pyFloat lit => !floatLitZero lit
  | .pyStr s => s != ""
  | .pyList .nil => false
  | .pyList (.cons _ _) => true
  | .pyDict .nil => false
  | .pyDict (.cons _ _ _) => true

/-! ## `json.dumps` (CPython defaults: `ensure_ascii=True`, separators
`", "` / `": "`, `allow_nan=True`) -/

/-- One character of `py_encode_basestring_ascii`: short escapes for the
usual control characters, `\uXXXX` for everything else outside printable
ASCII, as a surrogate pair above `U+FFFF`. -/
def escapeChar (c : Char) : List Char :=
  if c = '"' then ['\\', '"']
  else if c = '\\' then ['\\', '\\']
  else if c = '\n' then ['\\', 'n']
  else if c = '\r' then ['\\', 'r']
  else if c = '\t' then ['\\', 't']
  else if c.toNat = 0x08 then ['\\', 'b']
  else if c.toNat = 0x0C then ['\\', 'f']
  else if c.toNat < 0x20 || 0x7E < c.toNat then
    if c.toNat < 0x10000 then '\\' :: 'u' :: hexQuadText c.toNat
    else
      let v := c.toNat - 0x10000
      '\\' :: 'u' :: hexQuadText (0xD800 + v / 0x400) ++ '\\' :: 'u' :: hexQuadText (0xDC00 + v % 0x400)
  else [c]

/-- A whole string body, escaped. -/
def escText : List Char → List Char
  | [] => []
  | c :: t => escapeChar c ++ escText t

mutual
/-- Serialized text of one value (`json.dumps` without the `str` wrapper). -/
def dumpVal : PyVal → List Char
  | .pyNone => ['n', 'u', 'l', 'l']
  | .pyBool true => ['t', 'r', 'u', 'e']
  | .pyBool false => ['f', 'a', 'l', 's', 'e']
  | .pyInt n => intText n
  | .pyFloat lit => lit.data
  | .pyStr s => '"' :: escText s.data ++ ['"']
  | .pyList .nil => ['[', ']']
  | .pyList (.cons h t) => '[' :: dumpVal h ++ dumpListRest t
  | .pyDict .nil => ['{', '}']
  | .pyDict (.cons k v t) =>
    '{' :: ('"' :: escText k.data ++ '"' :: ':' :: ' ' :: dumpVal v) ++ dumpObjRest t

/-- Continuation of a non-empty array: `", item"*` then `]`. -/
def dumpListRest : VList → List Char
  | .nil => [']']
  | .cons h t => ',' :: ' ' :: dumpVal h ++ dumpListRest t

/-- Continuation of a non-empty object: `", pair"*` then `}`. -/
def dumpObjRest : VObj → List Char
  | .nil => ['}']
  | .cons k v t =>
    ',' :: ' ' :: ('"' :: escText k.data ++ '"' :: ':' :: ' ' :: dumpVal v) ++ dumpObjRest t
end

/-- One `"key": value` pair, as it appears inside a serialized object. -/
def dumpEntry (k : String) (v : PyVal) : List Char :=
  '"' :: escText k.data ++ '"' :: ':' :: ' ' :: dumpVal v

/-- `json.dumps(v)` with CPython's default options. -/
def json.dumps (v : PyVal) : String := String.mk (dumpVal v)

/-! ## `json.loads` (CPython's pure-Python scanner, strict mode) -/

/-- Drop leading JSON whitespace. -/
def skipWs : List Char → List Char
  | c :: t => if jsonWs c then skipWs t else c :: t
  | [] => []

/-- Map a single-character escape to the character it denotes
(`BACKSLASH` table of `json.decoder`). -/
def escMap (e : Char) : Option Char :=
  if e = '"' then some '"'
  else if e = '\\' then some '\\'
  else if e = '/' then some '/'
  else if e = 'b' then some (Char.ofNat 0x08)
  else if e = 'f' then some (Char.ofNat 0x0C)
  else if e = 'n' then some '\n'
  else if e = 'r' then some '\r'
  else if e = 't' then some '\t'
  else none

/-- Look ahead for a `\uXXXX` escape carrying a low surrogate, the pair
completion CPython probes for after a high surrogate escape. -/
def lowSurr (l : List Char) : Option (Nat × List Char) :=
  match l with
  | '\\' :: 'u' :: g1 :: g2 :: g3 :: g4 :: t =>
    match hexQuad g1 g2 g3 g4 with
    | some m => if 0xDC00 ≤ m && m ≤ 0xDFFF then some (m, t) else none
    | none => none
  | _ => none

/-- String body after the opening quote (`py_scanstring`, strict): raw
control characters are rejected, `\uXXXX` escapes are read with surrogate
pairs combined.  CPython keeps a *lone* surrogate escape as a lone
surrogate code unit in the `str`; a Lean `Char` cannot carry one, so the
model stores `U+FFFD` there — reachable only from inputs no serializer
produces, and irrelevant to parse success/failure.  The fuel only bounds
recursion depth (one unit per consumed character group); callers pass
more than the input length. -/
def strBody : Nat → List Char → Option (List Char × List Char)
  | 0, _ => none
  | _, [] => none
  | fuel + 1, c :: t =>
    if c = '"' then some ([], t)
    else if c = '\\' then
      match t with
      | [] => none
      | 'u' :: t2 =>
        match t2 with
        | h1 :: h2 :: h3 :: h4 :: t3 =>
          match hexQuad h1 h2 h3 h4 with
          | none => none
          | some n =>
            if 0xD800 ≤ n && n ≤ 0xDBFF then
              match lowSurr t3 with
              | some (m, t4) =>
                match strBody fuel t4 with
                | some (s, r) =>
                  some (Char.ofNat (0x10000 + (n - 0xD800) * 0x400 + (m - 0xDC00)) :: s, r)
                | none => none
              | none =>
                match strBody fuel t3 with
                | some (s, r) => some ('\uFFFD' :: s, r)
                | none => none
            else if 0xDC00 ≤ n && n ≤ 0xDFFF then
              match strBody fuel t3 with
              | some (s, r) => some ('\uFFFD' :: s, r)
              | none => none
            else
              match strBody fuel t3 with
              | some (s, r) => some (Char.ofNat n :: s, r)
              | none => none
        | _ => none
      | e :: t2 =>
        match escMap e with
        | some ch =>
          match strBody fuel t2 with
          | some (s, r) => some (ch :: s, r)
          | none => none
        | none => none
    else if c.toNat < 0x20 then none
    else
      match strBody fuel t with
      | some (s, r) => some (c :: s, r)
      | none => none

/-- Integer part of the `json` number regex: `0` stops immediately (no
leading zeros), otherwise a nonzero digit followed by any digit run. -/
def intPart : List Char → Option (List Char × List Char)
  | [] => none
  | c :: t =>
    if c = '0' then some (['0'], t)
    else if decDigit c then
      let (d, r) := digitSpan t
      some (c :: d, r)
    else none

/-- Optional fraction `(\.\d+)?`: consumed only when a digit follows the
dot, exactly as the regex group matches. -/
def fracPart (l : List Char) : List Char × List Char :=
  match l with
  | c :: t =>
    if c = '.' then
      match digitSpan t with
      | ([], _) => ([], l)
      | (d, r) => ('.' :: d, r)
    else ([], l)
  | [] => ([], [])

/-- Optional exponent `([eE][-+]?\d+)?`. -/
def expPart (l : List Char) : List Char × List Char :=
  match l with
  | e :: t =>
    if e = 'e' || e = 'E' then
      match t with
      | s :: t2 =>
        if s = '+' || s = '-' then
          match digitSpan t2 with
          | ([], _) => ([], l)
          | (d, r) => (e :: s :: d, r)
        else
          match digitSpan t with
          | ([], _) => ([], l)
          | (d, r) => (e :: d, r)
      | [] => ([], l)
    else ([], l)
  | [] => ([], [])

/-- The full number regex: sign, integer part, optional fraction and
exponent, returned as the matched pieces plus the remainder. -/
def numToken (l : List Char) : Option (Bool × List Char × List Char × List Char × List Char) :=
  match l with
  | c :: t =>
    if c = '-' then
      match intPart t with
      | none => none
      | some (ip, r1) =>
        let (fr, r2) := fracPart r1
        let (ex, r3) := expPart r2
        some (true, ip, fr, ex, r3)
    else
      match intPart (c :: t) with
      | none => none
      | some (ip, r1) =>
        let (fr, r2) := fracPart r1
        let (ex, r3) := expPart r2
        some (false, ip, fr, ex, r3)
  | [] => none

/-- A number: `int` when the match has neither fraction nor exponent,
otherwise a float carried as its matched literal. -/
def parseNum (l : List Char) : Option (PyVal × List Char) :=
  match numToken l with
  | none => none
  | some (neg, ip, fr, ex, rest) =>
    if fr = [] && ex = [] then
      some (.pyInt (if neg then -(decValue ip : Int) else (decValue ip : Int)), rest)
    else
      some (.pyFloat (String.mk ((if neg then ['-'] else []) ++ ip ++ fr ++ ex)), rest)

mutual
/-- One JSON value (`scan_once` of CPython's scanner, with the container
whitespace handling folded into value entry — the accepted language is
unchanged).  `fuel` only bounds recursion depth; `json.loads` passes more
than any input can consume. -/
def parseVal : Nat → List Char → Option (PyVal × List Char)
  | 0, _ => none
  | f + 1, cs =>
    match skipWs cs with
    | [] => none
    | c :: t =>
      if c = '"' then
        match strBody (t.length + 1) t with
        | some (s, r) => some (.pyStr (String.mk s), r)
        | none => none
      else if c = '{' then
        match skipWs t with
        | '}' :: r => some (.pyDict .nil, r)
        | u =>
          match parseEntries f u with
          | some (ps, r) => some (.pyDict (VObj.ofPairs .nil ps), r)
          | none => none
      else if c = '[' then
        match skipWs t with
        | ']' :: r => some (.pyList .nil, r)
        | u =>
          match parseItems f u with
          | some (xs, r) => some (.pyList xs, r)
          | none => none
      else if c = 'n' then
        match t with
        | 'u' :: 'l' :: 'l' :: r => some (.pyNone, r)
        | _ => none
      else if c = 't' then
        match t with
        | 'r' :: 'u' :: 'e' :: r => some (.pyBool true, r)
        | _ => none
      else if c = 'f' then
        match t with
        | 'a' :: 'l' :: 's' :: 'e' :: r => some (.pyBool false, r)
        | _ => none
      else if c = 'N' then
        match t with
        | 'a' :: 'N' :: r => some (.pyFloat "NaN", r)
        | _ => none
      else if c = 'I' then
        match t with
        | 'n' :: 'f' :: 'i' :: 'n' :: 'i' :: 't' :: 'y' :: r => some (.pyFloat "Infinity", r)
        | _ => none
      else if c = '-' then
        match t with
        | 'I' :: 'n' :: 'f' :: 'i' :: 'n' :: 'i' :: 't' :: 'y' :: r => some (.pyFloat "-Infinity", r)
        | _ => parseNum (c :: t)
      else parseNum (c :: t)

/-- One-or-more comma-separated array items up to the closing `]` (the
empty array is handled at value level). -/
def parseItems : Nat → List Char → Option (VList × List Char)
  | 0, _ => none
  | f + 1, cs =>
    match parseVal f cs with
    | none => none
    | some (v, r) =>
      match skipWs r with
      | ',' :: r2 =>
        match parseItems f r2 with
        | some (tl, r3) => some (.cons v tl, r3)
        | none => none
      | ']' :: r2 => some (.cons v .nil, r2)
      | _ => none

/-- One-or-more `"key": value` members up to the closing `}`, collected in
reading order (the builder then applies them with `dict`-assignment
semantics, so a duplicate key takes its last value). -/
def parseEntries : Nat → List Char → Option (List (String × PyVal) × List Char)
  | 0, _ => none
  | f + 1, cs =>
    match skipWs cs with
    | '"' :: t =>
      match strBody (t.length + 1) t with
      | none => none
      | some (k, r1) =>
        match skipWs r1 with
        | ':' :: r2 =>
          match parseVal f r2 with
          | none => none
          | some (v, r3) =>
            match skipWs r3 with
            | ',' :: r4 =>
              match parseEntries f r4 with
              | some (ps, r5) => some ((String.mk k, v) :: ps, r5)
              | none => none
            | '}' :: r4 => some ([(String.mk k, v)], r4)
            | _ => none
        | _ => none
    | _ => none
end

/-- `json.loads(s)`: parse one document, then require only whitespace to
follow ("Extra data" otherwise).  The fuel `2·|s| + 8` exceeds what any
input can consume (each two fuel steps consume at least one character). -/
def json.loads (s : String) : Option PyVal :=
  match parseVal (2 * s.data.length + 8) s.data with
  | some (v, r) => if skipWs r = [] then some v else none
  | none => none

/-! ## `bytes.decode("utf-8")` (strict, as CPython's default) -/

/-- Strict UTF-8 decoding of a byte sequence: rejects continuation-byte
errors, overlong forms, surrogates, values above `U+10FFFF`, and
truncated sequences — exactly the inputs where CPython raises
`UnicodeDecodeError`. -/
def utf8Decode : List Nat → Option (List Char)
  | [] => some []
  | b :: t =>
    if b < 0x80 then
      match utf8Decode t with
      | some s => some (Char.ofNat b :: s)
      | none => none
    else if b < 0xC2 then none
    else if b < 0xE0 then
      match t with
      | b2 :: t2 =>
        if 0x80 ≤ b2 && b2 < 0xC0 then
          match utf8Decode t2 with
          | some s => some (Char.ofNat ((b - 0xC0) * 0x40 + (b2 - 0x80)) :: s)
          | none => none
        else none
      | [] => none
    else if b < 0xF0 then
      match t with
      | b2 :: b3 :: t3 =>
        if (if b = 0xE0 then 0xA0 else 0x80) ≤ b2 && b2 ≤ (if b = 0xED then 0x9F else 0xBF)
            && 0x80 ≤ b3 && b3 < 0xC0 then
          match utf8Decode t3 with
          | some s =>
            some (Char.ofNat ((b - 0xE0) * 0x1000 + (b2 - 0x80) * 0x40 + (b3 - 0x80)) :: s)
          | none => none
        else none
      | _ => none
    else if b < 0xF5 then
      match t with
      | b2 :: b3 :: b4 :: t4 =>
        if (if b = 0xF0 then 0x90 else 0x80) ≤ b2 && b2 ≤ (if b = 0xF4 then 0x8F else 0xBF)
            && 0x80 ≤ b3 && b3 < 0xC0 && 0x80 ≤ b4 && b4 < 0xC0 then
          match utf8Decode t4 with
          | some s =>
            some (Char.ofNat ((b - 0xF0) * 0x40000 + (b2 - 0x80) * 0x1000
              + (b3 - 0x80) * 0x40 + (b4 - 0x80)) :: s)
          | none => none
        else none
      | _ => none
    else none

/-- `element.decode("utf-8")`. -/
def bytesDecode (bs : List Nat) : Option String := (utf8Decode bs).map String.mk

/-! ## Python `str()` / `repr()` on the value domain

Only the existence and rough shape of these strings matters to the
pipeline (they populate `original_data` / `error_message`); the claims
never inspect their text beyond simple values, which this model renders
exactly as CPython does.  (CPython's printable-category rules for exotic
characters inside `repr` of strings are not modelled.) -/

/-- Body of `repr` of a string with quote character `q`. -/
def strReprEsc (q : Char) : List Char → List Char
  | [] => []
  | c :: t =>
    if c = '\\' then '\\' :: '\\' :: strReprEsc q t
    else if c = q then '\\' :: q :: strReprEsc q t
    else if c = '\n' then '\\' :: 'n' :: strReprEsc q t
    else if c = '\r' then '\\' :: 'r' :: strReprEsc q t
    else if c = '\t' then '\\' :: 't' :: strReprEsc q t
    else if c.toNat < 0x20 || c.toNat = 0x7F then
      '\\' :: 'x' :: digitCh (c.toNat / 16) :: digitCh (c.toNat % 16) :: strReprEsc q t
    else c :: strReprEsc q t

/-- `repr` of a string: single-quoted, switching to double quotes when the
text contains `'` but no `"`. -/
def strRepr (s : String) : String :=
  let q := if s.data.contains '\'' && !(s.data.contains '"') then '"' else '\''
  String.mk (q :: strReprEsc q s.data ++ [q])

mutual
/-- `repr(v)` on the modelled values. -/
def pyRepr : PyVal → String
  | .pyNone => "None"
  | .pyBool true => "True"
  | .pyBool false => "False"
  | .pyInt n => String.mk (intText n)
  | .pyFloat lit => lit
  | .pyStr s => strRepr s
  | .pyList .nil => "[]"
  | .pyList (.cons h t) => "[" ++ pyRepr h ++ reprListRest t
  | .pyDict .nil => "{}"
  | .pyDict (.cons k v t) => "\x7b" ++ strRepr k ++ ": " ++ pyRepr v ++ reprObjRest t

/-- `", item"*` then `]` for a non-empty list's `repr`. -/
def reprListRest : VList → String
  | .nil => "]"
  | .cons h t => ", " ++ pyRepr h ++ reprListRest t

/-- `", key: value"*` then `}` for a non-empty dict's `repr`. -/
def reprObjRest : VObj → String
  | .nil => "\x7d"
  | .cons k v t => ", " ++ strRepr k ++ ": " ++ pyRepr v ++ reprObjRest t
end

/-- Python `str(v)`: the string itself for a `str`, its `repr` otherwise. -/
def pyStrOf : PyVal → String
  | .pyStr s => s
  | v => pyRepr v

/-! ## Python item access and membership, as the DoFns use them

`MaskPIIFn.process` runs `field in record`, `record[field]` and
`record[field] = …` on whatever `json.loads` produced, which need not be a
dict; CPython raises `TypeError` then, and the DoFn's `except` catches it.
`Except String` carries those exceptions. -/

/-- Substring containment on character lists (Python `sub in s`). -/
def listInfix (n : List Char) : List Char → Bool
  | [] => n.isEmpty
  | c :: t => n.isPrefixOf (c :: t) || listInfix n t

/-- Python `field in v`. -/
def pyContains (v : PyVal) (field : String) : Except String Bool :=
  match v with
  | .pyStr s => .ok (listInfix field.data s.data)
  | .pyList xs => .ok (xs.elem (.pyStr field))
  | .pyDict m => .ok (m.hasKey field)
  | _ => .error "TypeError: argument of type is not iterable"

/-- Python `v[field]` with a string subscript. -/
def pyGetItem (v : PyVal) (field : String) : Except String PyVal :=
  match v with
  | .pyDict m =>
    match m.lookup field with
    | some x => .ok x
    | none => .error "KeyError"
  | .pyStr _ => .error "TypeError: string indices must be integers"
  | .pyList _ => .error "TypeError: list indices must be integers"
  | _ => .error "TypeError: object is not subscriptable"

/-- Python `v[field] = x` with a string subscript. -/
def pySetItem (v : PyVal) (field : String) (x : PyVal) : Except String PyVal :=
  match v with
  | .pyDict m => .ok (.pyDict (m.set field x))
  | _ => .error "TypeError: object does not support item assignment"

/-! ## `MaskPIIFn` (lines 31–127) -/

/-- Line 35: the designated PII fields. -/
def MaskPIIFn.FIELDS_TO_MASK : List String := ["userIamPrincipal"]

/-- Lines 47–100, `_mask_text`: falsy or non-string input is returned
unchanged; otherwise one DLP `deidentify_content` call.  The external call
is the parameter `dlp` (its template/inline-config request building has no
observable effect on this model beyond the response text or the raised
error, both of which `dlp` supplies). -/
def MaskPIIFn._mask_text (dlp : String → Except String String) (text : PyVal) :
    Except String PyVal :=
  match text with
  | .pyStr s => if s = "" then .ok (.pyStr s) else (dlp s).map PyVal.pyStr
  | v => .ok v

/-- Lines 108–110: the `for field in FIELDS_TO_MASK` loop with its
`if field in record and record[field]:` guard. -/
def maskFields (dlp : String → Except String String) :
    PyVal → List String → Except String PyVal
  | r, [] => .ok r
  | r, f :: rest => do
    let present ← pyContains r f
    if present then
      let v ← pyGetItem r f
      if pyTruthy v then
        let masked ← MaskPIIFn._mask_text dlp v
        let r2 ← pySetItem r f masked
        maskFields dlp r2 rest
      else maskFields dlp r rest
    else maskFields dlp r rest

/-- A raw element as delivered to `process`: Pub/Sub bytes, or an already
structured value (the `isinstance(element, bytes)` distinction of
line 105). -/
inductive PyElem where
  | bytes (bs : List Nat) : PyElem
  | val (v : PyVal) : PyElem
deriving DecidableEq

/-- Line 105: `json.loads(element.decode("utf-8")) if isinstance(element,
bytes) else element`. -/
def decodeElement : PyElem → Except String PyVal
  | .bytes bs =>
    match bytesDecode bs with
    | none => .error "UnicodeDecodeError"
    | some s =>
      match json.loads s with
      | some v => .ok v
      | none => .error "Expecting value"
  | .val v => .ok v

/-- The dead-letter wire entity (the spec's ErrorRecord). -/
structure ErrorRecord where
  original_data : String
  error_message : String
  error_type : String
  error_timestamp : String
deriving DecidableEq

/-- Wire value of the masking-failure kind (line 124). -/
def MASKING_ERROR : String := "MASKING_ERROR"

/-- The spec names this error-kind `SINK_WRITE_ERROR`; in the code its
wire value is the literal `"BIGQUERY_WRITE_ERROR"` (line 191). -/
def SINK_WRITE_ERROR : String := "BIGQUERY_WRITE_ERROR"

/-- What one `process` call emits for one element: the success channel
(`TaggedOutput "masked"`), the dead-letter channel, or an exception that
escapes `process` itself. -/
inductive MaskOutput where
  | masked (record : PyVal) : MaskOutput
  | deadLetter (rec : ErrorRecord) : MaskOutput
  | raised (msg : String) : MaskOutput
deriving DecidableEq

/-- Lines 104–116, the `try` body: decode, mask the designated fields,
stamp `_masked_at` (the current UTC timestamp, here the parameter `now`)
and `_masking_status = "SUCCESS"`. -/
def MaskPIIFn.processTry (dlp : String → Except String String) (now : String)
    (el : PyElem) : Except String PyVal := do
  let record ← decodeElement el
  let record ← maskFields dlp record MaskPIIFn.FIELDS_TO_MASK
  let record ← pySetItem record "_masked_at" (.pyStr now)
  let record ← pySetItem record "_masking_status" (.pyStr "SUCCESS")
  .ok record

/-- Lines 102–127, `MaskPIIFn.process`: the `try` body on success tags
`"masked"`; any exception is caught and turned into a dead-letter
ErrorRecord — but building `original_data` re-runs
`element.decode("utf-8")` on bytes input (line 122), so undecodable bytes
raise `UnicodeDecodeError` out of the handler itself (`.raised`). -/
def MaskPIIFn.process (dlp : String → Except String String) (now : String)
    (el : PyElem) : MaskOutput :=
  match MaskPIIFn.processTry dlp now el with
  | .ok r => .masked r
  | .error e =>
    match el with
    | .bytes bs =>
      match bytesDecode bs with
      | some s => .deadLetter ⟨s, e, MASKING_ERROR, now⟩
      | none => .raised "UnicodeDecodeError"
    | .val v => .deadLetter ⟨pyStrOf v, e, MASKING_ERROR, now⟩

/-! ## `FormatForBigQuery` (lines 130–165) -/

/-- Line 134: fields stored as BigQuery JSON columns. -/
def FormatForBigQuery.JSON_FIELDS : List String := ["request", "response"]

/-- Lines 138–143: the expected-fields list. -/
def expected_fields : List String :=
  ["request", "response", "userIamPrincipal", "timestamp",
   "userQuery", "serviceTextReply", "serviceLabel",
   "methodName", "serviceAttributionToken", "serviceName",
   "_masked_at", "_masking_status"]

/-- Lines 145–147: `if field not in element: element[field] = None`,
sequentially over a field list. -/
def fillMissing : VObj → List String → VObj
  | r, [] => r
  | r, f :: t => fillMissing (if r.hasKey f then r else r.set f .pyNone) t

/-- Lines 151–163, one JSON-designated field: skip absent/None; serialize
a dict; validate a string by parsing, wrapping it as
`{"raw_value": value}` when the parse fails; leave anything else alone. -/
def canonField (r : VObj) (f : String) : VObj :=
  match r.lookup f with
  | none => r
  | some .pyNone => r
  | some (.pyDict m) => r.set f (.pyStr (json.dumps (.pyDict m)))
  | some (.pyStr s) =>
    match json.loads s with
    | some _ => r
    | none => r.set f (.pyStr (json.dumps (.pyDict (.cons "raw_value" (.pyStr s) .nil))))
  | some _ => r

/-- The `for field in JSON_FIELDS` loop. -/
def canonFields : VObj → List String → VObj
  | r, [] => r
  | r, f :: t => canonFields (canonField r f) t

/-- Lines 136–165, `FormatForBigQuery.process`.  Its input is a record
from the `"masked"` channel, which (as `MaskPIIFn.process` shows) is
always a dict. -/
def FormatForBigQuery.process (element : VObj) : VObj :=
  canonFields (fillMissing element expected_fields) FormatForBigQuery.JSON_FIELDS

/-! ## `HandleBigQueryErrors` (lines 168–203) -/

/-- A sink failure report as `process` probes it: an object with a `row`
attribute (and possibly an `errors` attribute; `srepr` is its `str()`
form, data of the opaque report object), a Python list or tuple, or
anything else. -/
inductive SinkFailure where
  | tagged (row : PyVal) (errors : Option PyVal) (srepr : String) : SinkFailure
  | seq (elems : List PyVal) : SinkFailure
  | other (v : PyVal) : SinkFailure
deriving DecidableEq

/-- Line 189: `json.dumps(row) if isinstance(row, dict) else str(row)`. -/
def rowData : PyVal → String
  | .pyDict m => json.dumps (.pyDict m)
  | v => pyStrOf v

/-- Lines 188–193: the ErrorRecord built from an extracted row and an
error-message text. -/
def bqErrorRecord (now : String) (row : PyVal) (errMsg : String) : ErrorRecord :=
  ⟨rowData row, errMsg, SINK_WRITE_ERROR, now⟩

/-- Lines 171–203, `HandleBigQueryErrors.process`: probe the shape in
order — `row` attribute, list/tuple of length ≥ 2 (3 ⇒ triple, else
pair), opaque fallback — and yield exactly one serialized ErrorRecord.
On the modelled value domain `json.dumps` and `str()` are total, so the
`except` fallback of lines 195–203 cannot trigger and the function is
total. -/
def HandleBigQueryErrors.process (now : String) (element : SinkFailure) : ErrorRecord :=
  match element with
  | .tagged row errs srepr =>
    bqErrorRecord now row (match errs with | some e => pyStrOf e | none => srepr)
  | .seq l =>
    if 2 ≤ l.length then
      if l.length = 3 then bqErrorRecord now (l.getD 1 .pyNone) (pyStrOf (l.getD 2 .pyNone))
      else bqErrorRecord now (l.getD 0 .pyNone) (pyStrOf (l.getD 1 .pyNone))
    else bqErrorRecord now (.pyList (VList.ofList l)) "Unknown error format"
  | .other v => bqErrorRecord now v "Unknown error format"

/-! ## The sink schema literal (lines 250–265 of `run`) -/

/-- One field of the BigQuery table schema dict. -/
structure SchemaField where
  name : String
  type : String
  mode : String
deriving DecidableEq

/-- Lines 250–265: `table_schema["fields"]`. -/
def table_schema : List SchemaField :=
  [⟨"request", "JSON", "NULLABLE"⟩,
   ⟨"response", "JSON", "NULLABLE"⟩,
   ⟨"userIamPrincipal", "STRING", "NULLABLE"⟩,
   ⟨"timestamp", "TIMESTAMP", "NULLABLE"⟩,
   ⟨"userQuery", "STRING", "NULLABLE"⟩,
   ⟨"serviceTextReply", "STRING", "NULLABLE"⟩,
   ⟨"serviceLabel", "STRING", "NULLABLE"⟩,
   ⟨"methodName", "STRING", "NULLABLE"⟩,
   ⟨"serviceAttributionToken", "STRING", "NULLABLE"⟩,
   ⟨"serviceName", "STRING", "NULLABLE"⟩,
   ⟨"_masked_at", "TIMESTAMP", "NULLABLE"⟩,
   ⟨"_masking_status", "STRING", "NULLABLE"⟩]

/-- A masking service that always answers (used to instantiate theorems at
concrete inputs). -/
def dlpEcho : String → Except String String := fun s => .ok s

/-! ## Well-formedness for the serialization round-trip

A float literal is well formed when it is text CPython's float
serialization can produce and its number scanner reads back in one piece:
a match of the number regex carrying a fraction or exponent, or one of the
`allow_nan` constants.  A dict is well formed when its keys are distinct
(automatic for real Python dicts).  `json.loads` output always satisfies
both; `PyVal` as a type does not force them. -/

/-- A nonempty all-digit run. -/
def digitsAllNE (l : List Char) : Bool := !l.isEmpty && l.all decDigit

/-- `[eE][-+]?\d+` covering the whole remainder. -/
def expOnlyShape : List Char → Bool
  | e :: t =>
    (e = 'e' || e = 'E') &&
    (match t with
     | s :: t2 => if s = '+' || s = '-' then digitsAllNE t2 else digitsAllNE t
     | [] => false)
  | [] => false

/-- After the integer part: `(\.\d+)?([eE][-+]?\d+)?` with at least one of
the two present, covering the whole remainder. -/
def fracExpShape : List Char → Bool
  | [] => false
  | c :: t =>
    if c = '.' then
      match digitSpan t with
      | ([], _) => false
      | (_, r) => r.isEmpty || expOnlyShape r
    else expOnlyShape (c :: t)

/-- `(0|[1-9]\d*)` then `fracExpShape`. -/
def floatBodyShape : List Char → Bool
  | c :: t =>
    if c = '0' then fracExpShape t
    else if decDigit c then fracExpShape (digitSpan t).2
    else false
  | [] => false

/-- An optional sign then `floatBodyShape`. -/
def floatNumShape : List Char → Bool
  | [] => false
  | c :: t => if c = '-' then floatBodyShape t else floatBodyShape (c :: t)

/-- A float literal CPython can produce and re-read. -/
def floatLitOk (lit : String) : Bool :=
  lit = "NaN" || lit = "Infinity" || lit = "-Infinity" || floatNumShape lit.data

/-- Distinct keys, as in a real Python dict. -/
def VObj.nodupKeys : VObj → Bool
  | .nil => true
  | .cons k _ t => !(t.hasKey k) && t.nodupKeys

mutual
/-- All float literals well formed, all dicts duplicate-free. -/
def PyVal.wf : PyVal → Bool
  | .pyNone => true
  | .pyBool _ => true
  | .pyInt _ => true
  | .pyFloat lit => floatLitOk lit
  | .pyStr _ => true
  | .pyList xs => xs.wf
  | .pyDict m => m.nodupKeys && m.wf

/-- `wf` for every item. -/
def VList.wf : VList → Bool
  | .nil => true
  | .cons h t => h.wf && t.wf

/-- `wf` for every value. -/
def VObj.wf : VObj → Bool
  | .nil => true
  | .cons _ v t => v.wf && t.wf
end

/-- Text that cannot extend a number match to its left: empty, or headed
by something that is no digit and none of `.`, `e`, `E`.  Every JSON
delimiter and the end of input qualify. -/
def numStop : List Char → Bool
  | [] => true
  | c :: _ => !(decDigit c || c = '.' || c = 'e' || c = 'E')

/-- Concatenation of dict spines. -/
def VObj.append : VObj → VObj → VObj
  | .nil, m => m
  | .cons k v t, m => .cons k v (t.append m)

/-! # Proofs

## Characters and decimal text -/

theorem charToNat_inj {c d : Char} (h : c.toNat = d.toNat) : c = d := by
  have hc := Char.ofNat_toNat c
  rw [h, Char.ofNat_toNat] at hc
  exact hc.symm

theorem decDigit_iff {c : Char} : decDigit c = true ↔ 48 ≤ c.toNat ∧ c.toNat ≤ 57 := by
  unfold decDigit
  rw [Bool.and_eq_true, decide_eq_true_eq, decide_eq_true_eq]
  rw [Char.le_def, UInt32.le_def, BitVec.le_def]
  exact Iff.rfl

theorem jsonWs_iff {c : Char} :
    jsonWs c = true ↔ c.toNat = 32 ∨ c.toNat = 9 ∨ c.toNat = 10 ∨ c.toNat = 13 := by
  unfold jsonWs
  simp only [Bool.or_eq_true, decide_eq_true_eq]
  constructor
  · rintro (((rfl | rfl) | rfl) | rfl) <;> simp
  · rintro (h | h | h | h)
    · exact Or.inl (Or.inl (Or.inl (charToNat_inj h)))
    · exact Or.inl (Or.inl (Or.inr (charToNat_inj h)))
    · exact Or.inl (Or.inr (charToNat_inj h))
    · exact Or.inr (charToNat_inj h)

theorem digitCh_spec : ∀ d : Nat, d < 10 → decVal (digitCh d) = d ∧ decDigit (digitCh d) = true := by
  decide

theorem hexDigVal_digitCh : ∀ d : Nat, d < 16 → hexDigVal (digitCh d) = some d := by decide

theorem digitCh_ne_zero : ∀ d : Nat, 1 ≤ d → d < 10 → digitCh d ≠ '0' := by decide

/-- Bundled head consequences of being a digit, used to steer the value
dispatch and the whitespace skipper. -/
theorem decDigit_head {c : Char} (h : decDigit c = true) :
    jsonWs c = false ∧ c ≠ '"' ∧ c ≠ '{' ∧ c ≠ '[' ∧ c ≠ 'n' ∧ c ≠ 't' ∧ c ≠ 'f' ∧
      c ≠ 'N' ∧ c ≠ 'I' ∧ c ≠ '-' ∧ c ≠ ']' ∧ c ≠ '}' ∧ c ≠ ',' ∧ c ≠ '.' ∧
      c ≠ 'e' ∧ c ≠ 'E' := by
  rw [decDigit_iff] at h
  refine ⟨?_, ?_, ?_, ?_, ?_, ?_, ?_, ?_, ?_, ?_, ?_, ?_, ?_, ?_, ?_, ?_⟩
  · rw [Bool.eq_false_iff]
    intro hw
    rw [jsonWs_iff] at hw
    omega
  all_goals (intro hc; subst hc; exact absurd h (by decide))

theorem skipWs_cons_of_not {c : Char} {l : List Char} (h : jsonWs c = false) :
    skipWs (c :: l) = c :: l := by
  simp [skipWs, h]

/-! ## Decimal rendering inverts through the digit reader -/

theorem decChars_fuel (n : Nat) : ∀ f1 f2 acc, n < f1 → n < f2 →
    decChars f1 n acc = decChars f2 n acc := by
  induction n using Nat.strong_induction_on with
  | _ n ih =>
    intro f1 f2 acc h1 h2
    cases f1 with
    | zero => omega
    | succ g1 =>
      cases f2 with
      | zero => omega
      | succ g2 =>
        simp only [decChars]
        by_cases h : n < 10
        · simp [h]
        · simp only [if_neg h]
          exact ih (n / 10) (by omega) g1 g2 _ (by omega) (by omega)

theorem decChars_acc (n : Nat) : ∀ f acc, n < f →
    decChars f n acc = decChars f n [] ++ acc := by
  induction n using Nat.strong_induction_on with
  | _ n ih =>
    intro f acc hf
    cases f with
    | zero => omega
    | succ g =>
      simp only [decChars]
      by_cases h : n < 10
      · simp [h]
      · simp only [if_neg h]
        rw [ih (n / 10) (by omega) g _ (by omega),
            ih (n / 10) (by omega) g [digitCh (n % 10)] (by omega)]
        simp

theorem natText_step (n : Nat) :
    natText n = (if n < 10 then [] else natText (n / 10)) ++ [digitCh (n % 10)] := by
  by_cases h : n < 10
  · rw [if_pos h, List.nil_append, Nat.mod_eq_of_lt h]
    simp only [natText, decChars, if_pos h]
  · rw [if_neg h]
    conv_lhs => rw [natText]
    rw [show decChars (n + 1) n [] = decChars n (n / 10) [digitCh (n % 10)] from by
      simp only [decChars, if_neg h]]
    rw [decChars_acc (n / 10) n _ (by omega),
        decChars_fuel (n / 10) n (n / 10 + 1) [] (by omega) (by omega)]
    rfl

theorem natText_ne_nil (n : Nat) : natText n ≠ [] := by
  rw [natText_step]
  simp

theorem natText_digits (n : Nat) : ∀ c ∈ natText n, decDigit c = true := by
  induction n using Nat.strong_induction_on with
  | _ n ih =>
    rw [natText_step]
    intro c hc
    rcases List.mem_append.mp hc with h | h
    · by_cases h10 : n < 10
      · simp [h10] at h
      · simp only [if_neg h10] at h
        exact ih (n / 10) (by omega) c h
    · rw [List.mem_singleton] at h
      subst h
      exact (digitCh_spec (n % 10) (by omega)).2

theorem natText_head (n : Nat) (hn : 1 ≤ n) :
    ∃ c t, natText n = c :: t ∧ decDigit c = true ∧ c ≠ '0' := by
  induction n using Nat.strong_induction_on with
  | _ n ih =>
    by_cases h10 : n < 10
    · refine ⟨digitCh n, [], ?_, (digitCh_spec n h10).2, digitCh_ne_zero n hn h10⟩
      rw [natText_step, if_pos h10, Nat.mod_eq_of_lt h10]
      simp
    · obtain ⟨c, t, hct, hd, hz⟩ := ih (n / 10) (by omega) (by omega)
      refine ⟨c, t ++ [digitCh (n % 10)], ?_, hd, hz⟩
      rw [natText_step, if_neg h10, hct]
      simp

theorem decAccum_append {l1 : List Char} (h : ∀ c ∈ l1, decDigit c = true)
    (l2 : List Char) (a : Nat) :
    decAccum a (l1 ++ l2) = decAccum (decAccum a l1) l2 := by
  induction l1 generalizing a with
  | nil => simp [decAccum]
  | cons c t ih =>
    have hc : decDigit c = true := h c (by simp)
    simp only [List.cons_append, decAccum, if_pos hc]
    exact ih (fun x hx => h x (by simp [hx])) _

theorem decAccum_natText (n : Nat) : ∀ a,
    decAccum a (natText n) = a * 10 ^ (natText n).length + n := by
  induction n using Nat.strong_induction_on with
  | _ n ih =>
    intro a
    by_cases h10 : n < 10
    · have hstep : natText n = [digitCh n] := by
        rw [natText_step, if_pos h10, Nat.mod_eq_of_lt h10]
        simp
      rw [hstep]
      simp only [decAccum, if_pos (digitCh_spec n h10).2, (digitCh_spec n h10).1,
        List.length_singleton, pow_one]
    · have hstep := natText_step n
      rw [if_neg h10] at hstep
      rw [hstep, decAccum_append (fun c hc => natText_digits _ c hc),
        ih (n / 10) (by omega) a]
      have hd := digitCh_spec (n % 10) (by omega)
      simp only [decAccum, if_pos hd.2, hd.1, List.length_append, List.length_singleton]
      have hpow : 10 ^ ((natText (n / 10)).length + 1) = 10 ^ (natText (n / 10)).length * 10 :=
        pow_succ 10 _
      rw [hpow]
      have := Nat.div_add_mod n 10
      set X := 10 ^ (natText (n / 10)).length
      ring_nf
      omega

theorem decValue_natText (n : Nat) : decValue (natText n) = n := by
  unfold decValue
  rw [decAccum_natText n 0]
  simp

/-! ## The number scanner inverts rendering -/

theorem numStop_head {c : Char} {t : List Char} (h : numStop (c :: t) = true) :
    decDigit c = false ∧ c ≠ '.' ∧ c ≠ 'e' ∧ c ≠ 'E' := by
  simp only [numStop, Bool.not_eq_eq_eq_not, Bool.not_true, Bool.or_eq_false_iff,
    decide_eq_false_iff_not] at h
  exact ⟨h.1.1.1, h.1.1.2, h.1.2, h.2⟩

theorem digitSpan_not_digit {c : Char} {t : List Char} (h : decDigit c = false) :
    digitSpan (c :: t) = ([], c :: t) := by
  simp [digitSpan, h]

theorem digitSpan_of_numStop {l : List Char} (h : numStop l = true) :
    digitSpan l = ([], l) := by
  cases l with
  | nil => rfl
  | cons c t => exact digitSpan_not_digit (numStop_head h).1

theorem digitSpan_run {d : List Char} (hd : ∀ c ∈ d, decDigit c = true) :
    ∀ {r : List Char}, digitSpan r = ([], r) → digitSpan (d ++ r) = (d, r) := by
  induction d with
  | nil => intro r hr; simpa using hr
  | cons c t ih =>
    intro r hr
    have hc : decDigit c = true := hd c (by simp)
    have ht := ih (fun x hx => hd x (by simp [hx])) hr
    simp only [List.cons_append, digitSpan, if_pos hc, List.append_eq, ht]

theorem digitSpan_split (l : List Char) :
    ∃ d r, digitSpan l = (d, r) ∧ l = d ++ r ∧ (∀ c ∈ d, decDigit c = true) ∧
      digitSpan r = ([], r) := by
  induction l with
  | nil => exact ⟨[], [], rfl, rfl, by simp, rfl⟩
  | cons c t ih =>
    by_cases hc : decDigit c = true
    · obtain ⟨d, r, hspan, heq, hall, hstop⟩ := ih
      refine ⟨c :: d, r, ?_, by simp [heq], ?_, hstop⟩
      · simp [digitSpan, hc, hspan]
      · intro x hx
        rcases List.mem_cons.mp hx with rfl | hx
        · exact hc
        · exact hall x hx
    · rw [Bool.not_eq_true] at hc
      exact ⟨[], c :: t, digitSpan_not_digit hc, rfl, by simp, digitSpan_not_digit hc⟩

theorem fracPart_stop {l : List Char} (h : numStop l = true) : fracPart l = ([], l) := by
  cases l with
  | nil => rfl
  | cons c t => simp [fracPart, (numStop_head h).2.1]

theorem expPart_stop {l : List Char} (h : numStop l = true) : expPart l = ([], l) := by
  cases l with
  | nil => rfl
  | cons c t =>
    obtain ⟨-, -, he, hE⟩ := numStop_head h
    simp [expPart, he, hE]


theorem expPart_cons (e : Char) (t : List Char) :
    expPart (e :: t) =
      if e = 'e' || e = 'E' then
        match t with
        | s :: t2 =>
          if s = '+' || s = '-' then
            match digitSpan t2 with
            | ([], _) => ([], e :: t)
            | (d, r) => (e :: s :: d, r)
          else
            match digitSpan t with
            | ([], _) => ([], e :: t)
            | (d, r) => (e :: d, r)
        | [] => ([], e :: t)
      else ([], e :: t) := rfl

theorem digitsAllNE_split {l : List Char} (h : digitsAllNE l = true) :
    l ≠ [] ∧ ∀ c ∈ l, decDigit c = true := by
  unfold digitsAllNE at h
  rw [Bool.and_eq_true] at h
  refine ⟨?_, ?_⟩
  · intro hl
    subst hl
    simp at h
  · intro c hc
    have := h.2
    rw [List.all_eq_true] at this
    simpa using this c hc

theorem expPart_shape {x rest : List Char} (hx : expOnlyShape x = true)
    (hr : numStop rest = true) : expPart (x ++ rest) = (x, rest) := by
  match x with
  | [] => exact absurd hx (by simp [expOnlyShape])
  | e :: t =>
    simp only [expOnlyShape, Bool.and_eq_true] at hx
    obtain ⟨he, ht⟩ := hx
    match t with
    | [] => exact absurd ht (by simp)
    | s :: t2 =>
      have ht' : (if s = '+' || s = '-' then digitsAllNE t2 else digitsAllNE (s :: t2)) = true := ht
      rw [show ((e :: s :: t2) ++ rest : List Char) = e :: (s :: t2 ++ rest) from rfl,
        expPart_cons, if_pos he]
      simp only [List.cons_append]
      by_cases hs : (s = '+' || s = '-') = true
      · rw [if_pos hs] at ht' ⊢
        obtain ⟨hne, hdig⟩ := digitsAllNE_split ht'
        rw [digitSpan_run hdig (digitSpan_of_numStop hr)]
        cases t2 with
        | nil => exact absurd rfl hne
        | cons a b => simp
      · rw [if_neg hs] at ht' ⊢
        obtain ⟨hne, hdig⟩ := digitsAllNE_split ht'
        have hsp : digitSpan ((s :: t2) ++ rest) = (s :: t2, rest) :=
          digitSpan_run hdig (digitSpan_of_numStop hr)
        rw [show (s :: (t2 ++ rest) : List Char) = (s :: t2) ++ rest from rfl, hsp]

theorem fracPart_cons (c : Char) (t : List Char) :
    fracPart (c :: t) =
      if c = '.' then
        match digitSpan t with
        | ([], _) => ([], c :: t)
        | (d, r) => ('.' :: d, r)
      else ([], c :: t) := rfl

theorem expOnlyShape_head_not_digit {r : List Char} (h : expOnlyShape r = true) :
    digitSpan r = ([], r) := by
  match r with
  | [] => rfl
  | e :: t =>
    simp only [expOnlyShape, Bool.and_eq_true, Bool.or_eq_true, decide_eq_true_eq] at h
    refine digitSpan_not_digit ?_
    rcases h.1 with rfl | rfl <;> decide

/-- The fraction/exponent tail of a well-shaped float literal parses back
as itself. -/
theorem fracExp_parse {fe rest : List Char} (hfe : fracExpShape fe = true)
    (hr : numStop rest = true) :
    ∃ fr ex, fracPart (fe ++ rest) = (fr, ex ++ rest) ∧ expPart (ex ++ rest) = (ex, rest) ∧
      fr ++ ex = fe ∧ (fr = [] ∧ ex = [] → False) := by
  match fe with
  | [] => exact absurd hfe (by simp [fracExpShape])
  | c :: t =>
    by_cases hc : c = '.'
    · subst hc
      simp only [fracExpShape, if_pos rfl] at hfe
      obtain ⟨d, r, hspan, heq, hdig, hstop⟩ := digitSpan_split t
      rw [hspan] at hfe
      cases d with
      | nil => simp at hfe
      | cons a b =>
        have hfe' : (r.isEmpty || expOnlyShape r) = true := hfe
        rw [Bool.or_eq_true] at hfe'
        subst heq
        have hrstop : digitSpan (r ++ rest) = ([], r ++ rest) := by
          rcases hfe' with hfe' | hfe'
          · rw [List.isEmpty_eq_true] at hfe'
            subst hfe'
            simpa using digitSpan_of_numStop hr
          · cases r with
            | nil => simpa using digitSpan_of_numStop hr
            | cons e t2 =>
              have := expOnlyShape_head_not_digit hfe'
              simp only [expOnlyShape, Bool.and_eq_true, Bool.or_eq_true,
                decide_eq_true_eq] at hfe'
              refine digitSpan_not_digit ?_
              rcases hfe'.1 with rfl | rfl <;> decide
        have hspan2 : digitSpan ((a :: b) ++ (r ++ rest)) = (a :: b, r ++ rest) :=
          digitSpan_run hdig hrstop
        refine ⟨'.' :: a :: b, r, ?_, ?_, by simp, by simp⟩
        · rw [show (('.' :: (a :: b ++ r)) ++ rest : List Char)
            = '.' :: ((a :: b) ++ (r ++ rest)) from by simp, fracPart_cons, if_pos rfl, hspan2]
        · rcases hfe' with hfe' | hfe'
          · rw [List.isEmpty_eq_true] at hfe'
            subst hfe'
            simpa using expPart_stop hr
          · exact expPart_shape hfe' hr
    · have hx : expOnlyShape (c :: t) = true := by
        simpa only [fracExpShape, if_neg hc] using hfe
      refine ⟨[], c :: t, ?_, expPart_shape hx hr, by simp, by simp⟩
      rw [show ((c :: t) ++ rest : List Char) = c :: (t ++ rest) from rfl,
        fracPart_cons, if_neg hc]

theorem intPart_cons (c : Char) (t : List Char) :
    intPart (c :: t) =
      if c = '0' then some (['0'], t)
      else if decDigit c then some (c :: (digitSpan t).1, (digitSpan t).2)
      else none := rfl

theorem numToken_cons (c : Char) (t : List Char) :
    numToken (c :: t) =
      if c = '-' then
        match intPart t with
        | none => none
        | some (ip, r1) =>
          some (true, ip, (fracPart r1).1, (expPart (fracPart r1).2).1,
            (expPart (fracPart r1).2).2)
      else
        match intPart (c :: t) with
        | none => none
        | some (ip, r1) =>
          some (false, ip, (fracPart r1).1, (expPart (fracPart r1).2).1,
            (expPart (fracPart r1).2).2) := rfl

theorem natText_zero : natText 0 = ['0'] := rfl

theorem intPart_natText (n : Nat) {rest : List Char} (hstop : digitSpan rest = ([], rest)) :
    intPart (natText n ++ rest) = some (natText n, rest) := by
  by_cases h0 : n = 0
  · subst h0
    rw [natText_zero, show (['0'] ++ rest : List Char) = '0' :: rest from rfl,
      intPart_cons, if_pos rfl]
  · obtain ⟨c, t, hct, hd, hz⟩ := natText_head n (by omega)
    have htd : ∀ x ∈ t, decDigit x = true := fun x hx =>
      natText_digits n x (hct ▸ List.mem_cons_of_mem c hx)
    rw [hct, show ((c :: t) ++ rest : List Char) = c :: (t ++ rest) from rfl, intPart_cons,
      if_neg hz, if_pos hd, digitSpan_run htd hstop]

theorem parseNum_intText (n : Int) {rest : List Char} (hr : numStop rest = true) :
    parseNum (intText n ++ rest) = some (.pyInt n, rest) := by
  have hfr := fracPart_stop hr
  have hex := expPart_stop hr
  unfold intText
  by_cases hneg : n < 0
  · rw [if_pos hneg,
      show (('-' :: natText n.natAbs) ++ rest : List Char) = '-' :: (natText n.natAbs ++ rest)
        from rfl]
    unfold parseNum
    rw [numToken_cons, if_pos rfl, intPart_natText n.natAbs (digitSpan_of_numStop hr)]
    simp only [hfr, hex, decValue_natText]
    norm_num
    rw [abs_of_neg hneg]
    ring
  · rw [if_neg hneg]
    have hne := natText_ne_nil n.toNat
    obtain ⟨c, t, hct⟩ : ∃ c t, natText n.toNat = c :: t := by
      cases hh : natText n.toNat with
      | nil => exact absurd hh hne
      | cons a b => exact ⟨a, b, rfl⟩
    have hd : decDigit c = true := natText_digits n.toNat c (hct ▸ List.mem_cons_self c t)
    have hcm : c ≠ '-' := (decDigit_head hd).2.2.2.2.2.2.2.2.2.1
    rw [hct, show ((c :: t) ++ rest : List Char) = c :: (t ++ rest) from rfl]
    unfold parseNum
    rw [numToken_cons, if_neg hcm,
      show (c :: (t ++ rest) : List Char) = (c :: t) ++ rest from rfl, ← hct,
      intPart_natText n.toNat (digitSpan_of_numStop hr)]
    simp only [hfr, hex, decValue_natText]
    norm_num
    omega

theorem digitSpan_stop_head {x : Char} {xs : List Char}
    (h : digitSpan (x :: xs) = ([], x :: xs)) : decDigit x = false := by
  by_cases hx : decDigit x = true
  · obtain ⟨d, r, hspan, -, -, -⟩ := digitSpan_split xs
    rw [digitSpan, if_pos hx, hspan] at h
    simp at h
  · simpa using hx

/-- A well-shaped float body splits as integer part, fraction and exponent,
and each scanner component consumes exactly its piece. -/
theorem floatBody_parse {b rest : List Char} (hb : floatBodyShape b = true)
    (hr : numStop rest = true) :
    ∃ ip fr ex, b = ip ++ fr ++ ex ∧
      intPart (b ++ rest) = some (ip, (fr ++ ex) ++ rest) ∧
      fracPart ((fr ++ ex) ++ rest) = (fr, ex ++ rest) ∧
      expPart (ex ++ rest) = (ex, rest) ∧ (fr = [] ∧ ex = [] → False) := by
  match b with
  | [] => exact absurd hb (by simp [floatBodyShape])
  | c :: t =>
    by_cases hc : c = '0'
    · subst hc
      have hfe : fracExpShape t = true := by simpa only [floatBodyShape, if_pos rfl] using hb
      obtain ⟨fr, ex, h1, h2, h3, h4⟩ := fracExp_parse hfe hr
      refine ⟨['0'], fr, ex, by simp [h3], ?_, by rw [h3]; exact h1, h2, h4⟩
      rw [show (('0' :: t) ++ rest : List Char) = '0' :: (t ++ rest) from rfl, intPart_cons,
        if_pos rfl, h3]
    · have hb' : (if decDigit c then fracExpShape (digitSpan t).2 else false) = true := by
        simpa only [floatBodyShape, if_neg hc] using hb
      by_cases hd : decDigit c = true
      · rw [if_pos hd] at hb'
        obtain ⟨d, r, hspan, heq, hdig, hstop⟩ := digitSpan_split t
        rw [hspan] at hb'
        obtain ⟨fr, ex, h1, h2, h3, h4⟩ := fracExp_parse hb' hr
        have hrstop : digitSpan (r ++ rest) = ([], r ++ rest) := by
          cases r with
          | nil => simpa using digitSpan_of_numStop hr
          | cons x xs => exact digitSpan_not_digit (digitSpan_stop_head hstop)
        refine ⟨c :: d, fr, ex, by simp [heq, h3], ?_, by rw [h3]; exact h1, h2, h4⟩
        rw [heq, show ((c :: (d ++ r)) ++ rest : List Char) = c :: (d ++ (r ++ rest)) from by
          simp, intPart_cons, if_neg hc, if_pos hd, digitSpan_run hdig hrstop, h3]
      · rw [if_neg hd] at hb'
        exact absurd hb' (by simp)

theorem parseNum_float {l rest : List Char} (hl : floatNumShape l = true)
    (hr : numStop rest = true) :
    parseNum (l ++ rest) = some (.pyFloat (String.mk l), rest) := by
  match l with
  | [] => exact absurd hl (by simp [floatNumShape])
  | c :: t =>
    by_cases hc : c = '-'
    · subst hc
      have hb : floatBodyShape t = true := by simpa only [floatNumShape, if_pos rfl] using hl
      obtain ⟨ip, fr, ex, heq, h2, h3, h4, h5⟩ := floatBody_parse hb hr
      have hcond : (fr = [] && ex = [] : Bool) = false := by
        cases hfr : fr with
        | cons a b => simp
        | nil =>
          cases hex : ex with
          | cons a b => simp
          | nil => exact absurd ⟨hfr, hex⟩ h5
      unfold parseNum
      rw [show (('-' :: t) ++ rest : List Char) = '-' :: (t ++ rest) from rfl, numToken_cons,
        if_pos rfl, h2]
      simp only [h3, h4, hcond, Bool.false_eq_true, if_false]
      simp [heq]
    · have hb : floatBodyShape (c :: t) = true := by
        simpa only [floatNumShape, if_neg hc] using hl
      obtain ⟨ip, fr, ex, heq, h2, h3, h4, h5⟩ := floatBody_parse hb hr
      have hcond : (fr = [] && ex = [] : Bool) = false := by
        cases hfr : fr with
        | cons a b => simp
        | nil =>
          cases hex : ex with
          | cons a b => simp
          | nil => exact absurd ⟨hfr, hex⟩ h5
      simp only [List.cons_append] at h2
      unfold parseNum
      rw [show (c :: t ++ rest : List Char) = c :: (t ++ rest) from rfl, numToken_cons,
        if_neg hc, h2]
      simp only [h3, h4, hcond, Bool.false_eq_true, if_false]
      simp [show (c :: t : List Char) = ip ++ fr ++ ex from heq]

/-! ## String escaping inverts through `strBody` -/

theorem hexQuad_text {v : Nat} (h : v < 0x10000) :
    hexQuad (digitCh (v / 4096 % 16)) (digitCh (v / 256 % 16)) (digitCh (v / 16 % 16))
      (digitCh (v % 16)) = some v := by
  have h1 := hexDigVal_digitCh (v / 4096 % 16) (by omega)
  have h2 := hexDigVal_digitCh (v / 256 % 16) (by omega)
  have h3 := hexDigVal_digitCh (v / 16 % 16) (by omega)
  have h4 := hexDigVal_digitCh (v % 16) (by omega)
  simp only [hexQuad, h1, h2, h3, h4, Option.bind_eq_bind, Option.some_bind,
    Option.pure_def, Option.some.injEq]
  omega

theorem char_valid_nat (c : Char) :
    c.toNat < 0xD800 ∨ (0xDFFF < c.toNat ∧ c.toNat < 0x110000) := c.valid

theorem lowSurr_cons (g1 g2 g3 g4 : Char) (t : List Char) :
    lowSurr ('\\' :: 'u' :: g1 :: g2 :: g3 :: g4 :: t) =
      match hexQuad g1 g2 g3 g4 with
      | some m => if 0xDC00 ≤ m && m ≤ 0xDFFF then some (m, t) else none
      | none => none := rfl

theorem strBody_u (f : Nat) (a b c d : Char) (x : List Char) :
    strBody (f + 1) ('\\' :: 'u' :: a :: b :: c :: d :: x) =
      match hexQuad a b c d with
      | none => none
      | some n =>
        if 0xD800 ≤ n && n ≤ 0xDBFF then
          match lowSurr x with
          | some (m, t4) =>
            match strBody f t4 with
            | some (s, r) =>
              some (Char.ofNat (0x10000 + (n - 0xD800) * 0x400 + (m - 0xDC00)) :: s, r)
            | none => none
          | none =>
            match strBody f x with
            | some (s, r) => some ('\uFFFD' :: s, r)
            | none => none
        else if 0xDC00 ≤ n && n ≤ 0xDFFF then
          match strBody f x with
          | some (s, r) => some ('\uFFFD' :: s, r)
          | none => none
        else
          match strBody f x with
          | some (s, r) => some (Char.ofNat n :: s, r)
          | none => none := rfl

theorem lowSurr_of_quad {g1 g2 g3 g4 : Char} {m : Nat} (hq : hexQuad g1 g2 g3 g4 = some m)
    (hm : 0xDC00 ≤ m ∧ m ≤ 0xDFFF) (t : List Char) :
    lowSurr ('\\' :: 'u' :: g1 :: g2 :: g3 :: g4 :: t) = some (m, t) := by
  rw [lowSurr_cons, hq]
  simp only []
  rw [if_pos (by simp [hm.1, hm.2])]

theorem strBody_u_bmp (f : Nat) (a b c d : Char) (x : List Char) {n : Nat}
    (hq : hexQuad a b c d = some n) (hn1 : ¬(0xD800 ≤ n ∧ n ≤ 0xDBFF))
    (hn2 : ¬(0xDC00 ≤ n ∧ n ≤ 0xDFFF)) :
    strBody (f + 1) ('\\' :: 'u' :: a :: b :: c :: d :: x) =
      match strBody f x with
      | some (s, r) => some (Char.ofNat n :: s, r)
      | none => none := by
  rw [strBody_u, hq]
  simp only []
  rw [if_neg (by simpa using hn1), if_neg (by simpa using hn2)]

theorem strBody_u_pair (f : Nat) (a b c d : Char) (x : List Char) {n m : Nat} {t4 : List Char}
    (hq : hexQuad a b c d = some n) (hn : 0xD800 ≤ n ∧ n ≤ 0xDBFF)
    (hl : lowSurr x = some (m, t4)) :
    strBody (f + 1) ('\\' :: 'u' :: a :: b :: c :: d :: x) =
      match strBody f t4 with
      | some (s, r) =>
        some (Char.ofNat (0x10000 + (n - 0xD800) * 0x400 + (m - 0xDC00)) :: s, r)
      | none => none := by
  rw [strBody_u, hq]
  simp only []
  rw [if_pos (by simp [hn.1, hn.2]), hl]

/-- Parsing one escaped character undoes one step of the escaper. -/
theorem strBody_escape (c : Char) (x : List Char) (f : Nat) :
    strBody (f + 1) (escapeChar c ++ x) =
      match strBody f x with
      | some (s, r) => some (c :: s, r)
      | none => none := by
  unfold escapeChar
  by_cases h1 : c = '"'
  · subst h1; simp [strBody, escMap]
  rw [if_neg h1]
  by_cases h2 : c = '\\'
  · subst h2; simp [strBody, escMap]
  rw [if_neg h2]
  by_cases h3 : c = '\n'
  · subst h3; simp [strBody, escMap]
  rw [if_neg h3]
  by_cases h4 : c = '\r'
  · subst h4; simp [strBody, escMap]
  rw [if_neg h4]
  by_cases h5 : c = '\t'
  · subst h5; simp [strBody, escMap]
  rw [if_neg h5]
  by_cases h6 : c.toNat = 0x08
  · have hc : c = Char.ofNat 0x08 := by rw [← h6, Char.ofNat_toNat]
    rw [if_pos h6]
    simp [strBody, escMap, hc]
  rw [if_neg h6]
  by_cases h7 : c.toNat = 0x0C
  · have hc : c = Char.ofNat 0x0C := by rw [← h7, Char.ofNat_toNat]
    rw [if_pos h7]
    simp [strBody, escMap, hc]
  rw [if_neg h7]
  by_cases h8 : (c.toNat < 0x20 || 0x7E < c.toNat) = true
  · rw [if_pos h8]
    have hval := char_valid_nat c
    by_cases h9 : c.toNat < 0x10000
    · rw [if_pos h9]
      rw [show ('\\' :: 'u' :: hexQuadText c.toNat ++ x : List Char)
        = '\\' :: 'u' :: digitCh (c.toNat / 4096 % 16) :: digitCh (c.toNat / 256 % 16)
          :: digitCh (c.toNat / 16 % 16) :: digitCh (c.toNat % 16) :: x from rfl]
      rw [strBody_u_bmp f _ _ _ _ x (hexQuad_text h9) (by omega) (by omega),
        Char.ofNat_toNat]
    · rw [if_neg h9]
      have hhi : 0xD800 + (c.toNat - 0x10000) / 0x400 < 0x10000 := by omega
      have hlo : 0xDC00 + (c.toNat - 0x10000) % 0x400 < 0x10000 := by omega
      rw [show ('\\' :: 'u' :: hexQuadText (0xD800 + (c.toNat - 0x10000) / 0x400)
            ++ '\\' :: 'u' :: hexQuadText (0xDC00 + (c.toNat - 0x10000) % 0x400) ++ x : List Char)
        = '\\' :: 'u' :: digitCh ((0xD800 + (c.toNat - 0x10000) / 0x400) / 4096 % 16)
            :: digitCh ((0xD800 + (c.toNat - 0x10000) / 0x400) / 256 % 16)
            :: digitCh ((0xD800 + (c.toNat - 0x10000) / 0x400) / 16 % 16)
            :: digitCh ((0xD800 + (c.toNat - 0x10000) / 0x400) % 16)
            :: ('\\' :: 'u' :: digitCh ((0xDC00 + (c.toNat - 0x10000) % 0x400) / 4096 % 16)
            :: digitCh ((0xDC00 + (c.toNat - 0x10000) % 0x400) / 256 % 16)
            :: digitCh ((0xDC00 + (c.toNat - 0x10000) % 0x400) / 16 % 16)
            :: digitCh ((0xDC00 + (c.toNat - 0x10000) % 0x400) % 16) :: x) from rfl]
      rw [strBody_u_pair f _ _ _ _ _ (hexQuad_text hhi) (by omega)
        (lowSurr_of_quad (hexQuad_text hlo) (by omega) x)]
      have harith : 0x10000 + (0xD800 + (c.toNat - 0x10000) / 0x400 - 0xD800) * 0x400
          + (0xDC00 + (c.toNat - 0x10000) % 0x400 - 0xDC00) = c.toNat := by omega
      rw [harith, Char.ofNat_toNat]
  · rw [if_neg h8]
    have h20 : ¬c.toNat < 0x20 := by
      intro hlt
      exact h8 (by simp [hlt])
    rw [show ([c] ++ x : List Char) = c :: x from rfl]
    simp only [strBody, if_neg h1, if_neg h2, if_neg h20]

theorem strBody_escText (s : List Char) : ∀ (f : Nat) (rest : List Char), s.length < f →
    strBody f (escText s ++ '"' :: rest) = some (s, rest) := by
  induction s with
  | nil =>
    intro f rest hf
    cases f with
    | zero => omega
    | succ g => simp [escText, strBody]
  | cons c t ih =>
    intro f rest hf
    cases f with
    | zero => omega
    | succ g =>
      rw [show (escText (c :: t) ++ '"' :: rest : List Char)
          = escapeChar c ++ (escText t ++ '"' :: rest) from by simp [escText],
        strBody_escape, ih g rest (by simp at hf; omega)]

theorem mkData (s : String) : String.mk s.data = s := rfl

theorem escapeChar_length (c : Char) : 1 ≤ (escapeChar c).length := by
  unfold escapeChar
  split_ifs <;> simp

theorem escText_length (s : List Char) : s.length ≤ (escText s).length := by
  induction s with
  | nil => simp [escText]
  | cons c t ih =>
    have := escapeChar_length c
    simp only [escText, List.length_append, List.length_cons]
    omega

/-! ## `parseVal` dispatch -/

theorem parseVal_succ (f : Nat) (cs : List Char) :
    parseVal (f + 1) cs =
      match skipWs cs with
      | [] => none
      | c :: t =>
        if c = '"' then
          match strBody (t.length + 1) t with
          | some (s, r) => some (.pyStr (String.mk s), r)
          | none => none
        else if c = '{' then
          match skipWs t with
          | '}' :: r => some (.pyDict .nil, r)
          | u =>
            match parseEntries f u with
            | some (ps, r) => some (.pyDict (VObj.ofPairs .nil ps), r)
            | none => none
        else if c = '[' then
          match skipWs t with
          | ']' :: r => some (.pyList .nil, r)
          | u =>
            match parseItems f u with
            | some (xs, r) => some (.pyList xs, r)
            | none => none
        else if c = 'n' then
          match t with
          | 'u' :: 'l' :: 'l' :: r => some (.pyNone, r)
          | _ => none
        else if c = 't' then
          match t with
          | 'r' :: 'u' :: 'e' :: r => some (.pyBool true, r)
          | _ => none
        else if c = 'f' then
          match t with
          | 'a' :: 'l' :: 's' :: 'e' :: r => some (.pyBool false, r)
          | _ => none
        else if c = 'N' then
          match t with
          | 'a' :: 'N' :: r => some (.pyFloat "NaN", r)
          | _ => none
        else if c = 'I' then
          match t with
          | 'n' :: 'f' :: 'i' :: 'n' :: 'i' :: 't' :: 'y' :: r => some (.pyFloat "Infinity", r)
          | _ => none
        else if c = '-' then
          match t with
          | 'I' :: 'n' :: 'f' :: 'i' :: 'n' :: 'i' :: 't' :: 'y' :: r =>
            some (.pyFloat "-Infinity", r)
          | _ => parseNum (c :: t)
        else parseNum (c :: t) := rfl

/-- A value whose text begins with a digit parses through `parseNum`. -/
theorem parseVal_digit (f : Nat) {c : Char} (t : List Char) (hd : decDigit c = true) :
    parseVal (f + 1) (c :: t) = parseNum (c :: t) := by
  obtain ⟨hws, hq, hob, hok, hn, ht, hf', hN, hI, hm, -⟩ := decDigit_head hd
  rw [parseVal_succ, skipWs_cons_of_not hws]
  simp only [if_neg hq, if_neg hob, if_neg hok, if_neg hn, if_neg ht, if_neg hf',
    if_neg hN, if_neg hI, if_neg hm]

/-- A value whose text begins with `-` followed by a digit parses through
`parseNum` (it cannot be `-Infinity`). -/
theorem parseVal_dash (f : Nat) {d : Char} (t : List Char) (hd : decDigit d = true) :
    parseVal (f + 1) ('-' :: d :: t) = parseNum ('-' :: d :: t) := by
  have hI : d ≠ 'I' := (decDigit_head hd).2.2.2.2.2.2.2.2.1
  rw [parseVal_succ, skipWs_cons_of_not (by decide)]
  simp only [if_neg (by decide : ¬('-' : Char) = '"'), if_neg (by decide : ¬('-' : Char) = '{'),
    if_neg (by decide : ¬('-' : Char) = '['), if_neg (by decide : ¬('-' : Char) = 'n'),
    if_neg (by decide : ¬('-' : Char) = 't'), if_neg (by decide : ¬('-' : Char) = 'f'),
    if_neg (by decide : ¬('-' : Char) = 'N'), if_neg (by decide : ¬('-' : Char) = 'I'),
    if_pos (rfl : ('-' : Char) = '-')]
  rw [if_pos trivial]
  split
  · rename_i r heq
    rw [List.cons.injEq] at heq
    exact absurd heq.1 hI
  · rfl

theorem floatBodyShape_head {b : List Char} (hb : floatBodyShape b = true) :
    ∃ d t, b = d :: t ∧ decDigit d = true := by
  match b with
  | [] => exact absurd hb (by simp [floatBodyShape])
  | c :: t =>
    refine ⟨c, t, rfl, ?_⟩
    by_cases hc : c = '0'
    · subst hc; decide
    · by_cases hd : decDigit c = true
      · exact hd
      · rw [show floatBodyShape (c :: t)
            = (if c = '0' then fracExpShape t
              else if decDigit c then fracExpShape (digitSpan t).2 else false) from rfl,
          if_neg hc, if_neg hd] at hb
        exact absurd hb (by simp)

theorem natText_head_digit (n : Nat) : ∃ c t, natText n = c :: t ∧ decDigit c = true := by
  cases hct : natText n with
  | nil => exact absurd hct (natText_ne_nil n)
  | cons c t =>
    exact ⟨c, t, rfl, natText_digits n c (hct ▸ List.mem_cons_self c t)⟩

/-- Every serialized value begins with a non-whitespace character that is
neither `]` nor `}`. -/
theorem dumpVal_head (v : PyVal) (hw : PyVal.wf v = true) :
    ∃ c t, dumpVal v = c :: t ∧ jsonWs c = false ∧ c ≠ ']' ∧ c ≠ '}' := by
  cases v with
  | pyNone => exact ⟨'n', _, rfl, by decide, by decide, by decide⟩
  | pyBool b =>
    cases b
    · refine ⟨'f', _, rfl, ?_, ?_, ?_⟩ <;> decide
    · refine ⟨'t', _, rfl, ?_, ?_, ?_⟩ <;> decide
  | pyStr s => refine ⟨'"', _, rfl, ?_, ?_, ?_⟩ <;> decide
  | pyList xs =>
    cases xs
    · refine ⟨'[', _, rfl, ?_, ?_, ?_⟩ <;> decide
    · refine ⟨'[', _, rfl, ?_, ?_, ?_⟩ <;> decide
  | pyDict m =>
    cases m
    · refine ⟨'{', _, rfl, ?_, ?_, ?_⟩ <;> decide
    · refine ⟨'{', _, rfl, ?_, ?_, ?_⟩ <;> decide
  | pyInt n =>
    show ∃ c t, intText n = c :: t ∧ _
    unfold intText
    by_cases hneg : n < 0
    · rw [if_pos hneg]
      exact ⟨'-', _, rfl, by decide, by decide, by decide⟩
    · rw [if_neg hneg]
      obtain ⟨c, t, hct, hd⟩ := natText_head_digit n.toNat
      obtain ⟨hws, -, -, -, -, -, -, -, -, -, hbr, hbc, -⟩ := decDigit_head hd
      exact ⟨c, t, hct, hws, hbr, hbc⟩
  | pyFloat lit =>
    show ∃ c t, lit.data = c :: t ∧ _
    have hok : floatLitOk lit = true := hw
    unfold floatLitOk at hok
    simp only [Bool.or_eq_true, decide_eq_true_eq] at hok
    rcases hok with ((rfl | rfl) | rfl) | hshape
    · exact ⟨'N', _, rfl, by decide, by decide, by decide⟩
    · exact ⟨'I', _, rfl, by decide, by decide, by decide⟩
    · exact ⟨'-', _, rfl, by decide, by decide, by decide⟩
    · match hd : lit.data with
      | [] => rw [hd] at hshape; exact absurd hshape (by simp [floatNumShape])
      | c :: t =>
        rw [hd] at hshape
        by_cases hc : c = '-'
        · subst hc
          exact ⟨'-', t, rfl, by decide, by decide, by decide⟩
        · rw [show floatNumShape (c :: t)
              = (if c = '-' then floatBodyShape t else floatBodyShape (c :: t)) from rfl,
            if_neg hc] at hshape
          obtain ⟨d, t', heq, hdig⟩ := floatBodyShape_head hshape
          rw [heq]
          obtain ⟨hws, -, -, -, -, -, -, -, -, -, hbr, hbc, -⟩ := decDigit_head hdig
          exact ⟨d, t', rfl, hws, hbr, hbc⟩

/-! ## `parseVal` on each serialized value form -/

theorem parseVal_int (f : Nat) (n : Int) {rest : List Char} (hr : numStop rest = true) :
    parseVal (f + 1) (intText n ++ rest) = some (.pyInt n, rest) := by
  by_cases hneg : n < 0
  · have hab : 1 ≤ n.natAbs := by omega
    obtain ⟨c, t, hct, hd, -⟩ := natText_head n.natAbs hab
    have hx : intText n ++ rest = '-' :: c :: (t ++ rest) := by
      unfold intText
      rw [if_pos hneg, hct]
      rfl
    rw [hx, parseVal_dash f (t ++ rest) hd, ← List.cons_append, ← hct,
      show ('-' :: (natText n.natAbs ++ rest) : List Char)
        = ('-' :: natText n.natAbs) ++ rest from rfl,
      show (('-' :: natText n.natAbs) ++ rest : List Char) = intText n ++ rest from by
        unfold intText
        rw [if_pos hneg]]
    exact parseNum_intText n hr
  · obtain ⟨c, t, hct, hd⟩ := natText_head_digit n.toNat
    have hx : intText n ++ rest = c :: (t ++ rest) := by
      unfold intText
      rw [if_neg hneg, hct]
      rfl
    rw [hx, parseVal_digit f (t ++ rest) hd, ← List.cons_append, ← hct,
      show (natText n.toNat ++ rest : List Char) = intText n ++ rest from by
        unfold intText
        rw [if_neg hneg]]
    exact parseNum_intText n hr

theorem parseVal_float (f : Nat) (lit : String) (hwf : floatLitOk lit = true)
    {rest : List Char} (hr : numStop rest = true) :
    parseVal (f + 1) (lit.data ++ rest) = some (.pyFloat lit, rest) := by
  unfold floatLitOk at hwf
  simp only [Bool.or_eq_true, decide_eq_true_eq] at hwf
  rcases hwf with ((rfl | rfl) | rfl) | hshape
  · rfl
  · rfl
  · rfl
  · match hd : lit.data with
    | [] => rw [hd] at hshape; exact absurd hshape (by simp [floatNumShape])
    | c :: t =>
      rw [hd] at hshape
      have hnum : parseNum ((c :: t) ++ rest) = some (.pyFloat (String.mk (c :: t)), rest) :=
        parseNum_float hshape hr
      have hmk : String.mk (c :: t) = lit := by rw [← hd, mkData]
      by_cases hc : c = '-'
      · subst hc
        rw [show floatNumShape ('-' :: t)
            = (if ('-' : Char) = '-' then floatBodyShape t else floatBodyShape ('-' :: t))
            from rfl, if_pos rfl] at hshape
        obtain ⟨d, t', heq, hdig⟩ := floatBodyShape_head hshape
        subst heq
        rw [show (('-' :: d :: t') ++ rest : List Char) = '-' :: d :: (t' ++ rest) from rfl,
          parseVal_dash f (t' ++ rest) hdig,
          show ('-' :: d :: (t' ++ rest) : List Char) = ('-' :: d :: t') ++ rest from rfl,
          hnum, hmk]
      · rw [show floatNumShape (c :: t)
            = (if c = '-' then floatBodyShape t else floatBodyShape (c :: t)) from rfl,
          if_neg hc] at hshape
        obtain ⟨d, t', heq, hdig⟩ := floatBodyShape_head hshape
        rw [heq] at hnum hmk ⊢
        rw [show ((d :: t') ++ rest : List Char) = d :: (t' ++ rest) from rfl,
          parseVal_digit f (t' ++ rest) hdig,
          show (d :: (t' ++ rest) : List Char) = (d :: t') ++ rest from rfl, hnum, hmk]

theorem parseVal_str (f : Nat) (s : String) (rest : List Char) :
    parseVal (f + 1) (dumpVal (.pyStr s) ++ rest) = some (.pyStr s, rest) := by
  rw [show (dumpVal (.pyStr s) ++ rest : List Char)
      = '"' :: (escText s.data ++ '"' :: rest) from by
    show ('"' :: escText s.data ++ ['"']) ++ rest = _
    simp]
  rw [parseVal_succ, skipWs_cons_of_not (by decide)]
  simp only []
  rw [if_pos trivial,
    strBody_escText s.data _ rest (by
      have h1 := escText_length s.data
      simp only [List.length_append, List.length_cons]
      omega)]

/-! ## Dict reconstruction under distinct keys -/

theorem hasKey_mem_keys : ∀ (m : VObj) (k : String), m.hasKey k = true ↔ k ∈ m.keys
  | .nil, k => by simp [VObj.hasKey, VObj.keys]
  | .cons k0 v0 t, k => by
    simp only [VObj.hasKey, VObj.keys, Bool.or_eq_true, decide_eq_true_eq, List.mem_cons,
      hasKey_mem_keys t k]
    constructor
    · rintro (rfl | h)
      · exact Or.inl rfl
      · exact Or.inr h
    · rintro (rfl | h)
      · exact Or.inl rfl
      · exact Or.inr h

theorem append_nil : ∀ m : VObj, m.append .nil = m
  | .nil => rfl
  | .cons k v t => by simp [VObj.append, append_nil t]

theorem append_assoc3 : ∀ a : VObj, ∀ b c : VObj, (a.append b).append c = a.append (b.append c)
  | .nil, _, _ => rfl
  | .cons k v t, b, c => by simp [VObj.append, append_assoc3 t b c]

theorem set_absent : ∀ {m : VObj} {k : String}, m.hasKey k = false → ∀ v : PyVal,
    m.set k v = m.append (.cons k v .nil)
  | .nil, k, _, v => rfl
  | .cons k0 v0 t, k, h, v => by
    simp only [VObj.hasKey, Bool.or_eq_false_iff, decide_eq_false_iff_not] at h
    simp [VObj.set, VObj.append, h.1, set_absent h.2 v]

theorem hasKey_set : ∀ (m : VObj) (k k' : String) (v : PyVal),
    (m.set k v).hasKey k' = (decide (k = k') || m.hasKey k')
  | .nil, k, k', v => by simp [VObj.set, VObj.hasKey]
  | .cons k0 v0 t, k, k', v => by
    by_cases h : k0 = k
    · simp only [VObj.set, if_pos h, VObj.hasKey, h]
      cases hkk : decide (k = k') <;> simp [hkk]
    · simp only [VObj.set, if_neg h, VObj.hasKey, hasKey_set t k k' v]
      cases hkk : decide (k = k') <;> cases hk0 : decide (k0 = k') <;> simp [hkk, hk0]

theorem ofPairs_entries_general : ∀ m : VObj, ∀ acc : VObj,
    (∀ k, k ∈ m.keys → acc.hasKey k = false) → m.nodupKeys = true →
    VObj.ofPairs acc m.entries = acc.append m
  | .nil, acc, _, _ => by
    rw [append_nil]
    rfl
  | .cons k v t, acc, hacc, hnd => by
    simp only [VObj.nodupKeys, Bool.and_eq_true, Bool.not_eq_eq_eq_not, Bool.not_true] at hnd
    obtain ⟨hk, hnd⟩ := hnd
    rw [show VObj.entries (.cons k v t) = (k, v) :: t.entries from rfl]
    rw [show VObj.ofPairs acc ((k, v) :: t.entries) = VObj.ofPairs (acc.set k v) t.entries
      from rfl]
    rw [ofPairs_entries_general t (acc.set k v) ?_ hnd]
    · rw [set_absent (hacc k (by simp [VObj.keys])) v, append_assoc3]
      rfl
    · intro k' hk'
      rw [hasKey_set]
      have hk'k : k ≠ k' := by
        intro h
        subst h
        exact absurd ((hasKey_mem_keys t k).mpr hk') (by simp [hk])
      simp only [Bool.or_eq_false_iff]
      refine ⟨by simpa using hk'k, hacc k' (by simp [VObj.keys, hk'])⟩

theorem ofPairs_entries {m : VObj} (h : m.nodupKeys = true) :
    VObj.ofPairs .nil m.entries = m := by
  rw [ofPairs_entries_general m .nil (fun k _ => rfl) h]
  rfl

/-! ## Whitespace and separator plumbing for the round-trip -/

theorem parseVal_ws {c : Char} (hc : jsonWs c = true) (f : Nat) (l : List Char) :
    parseVal f (c :: l) = parseVal f l := by
  cases f with
  | zero => rfl
  | succ g => rw [parseVal_succ, parseVal_succ, skipWs, if_pos hc]

theorem parseItems_succ (f : Nat) (cs : List Char) :
    parseItems (f + 1) cs =
      match parseVal f cs with
      | none => none
      | some (v, r) =>
        match skipWs r with
        | ',' :: r2 =>
          match parseItems f r2 with
          | some (tl, r3) => some (.cons v tl, r3)
          | none => none
        | ']' :: r2 => some (.cons v .nil, r2)
        | _ => none := rfl

theorem parseEntries_succ (f : Nat) (cs : List Char) :
    parseEntries (f + 1) cs =
      match skipWs cs with
      | '"' :: t =>
        match strBody (t.length + 1) t with
        | none => none
        | some (k, r1) =>
          match skipWs r1 with
          | ':' :: r2 =>
            match parseVal f r2 with
            | none => none
            | some (v, r3) =>
              match skipWs r3 with
              | ',' :: r4 =>
                match parseEntries f r4 with
                | some (ps, r5) => some ((String.mk k, v) :: ps, r5)
                | none => none
              | '}' :: r4 => some ([(String.mk k, v)], r4)
              | _ => none
          | _ => none
      | _ => none := rfl

theorem parseItems_ws {c : Char} (hc : jsonWs c = true) (f : Nat) (l : List Char) :
    parseItems f (c :: l) = parseItems f l := by
  cases f with
  | zero => rfl
  | succ g => rw [parseItems_succ, parseItems_succ, parseVal_ws hc]

theorem parseEntries_ws {c : Char} (hc : jsonWs c = true) (f : Nat) (l : List Char) :
    parseEntries f (c :: l) = parseEntries f l := by
  cases f with
  | zero => rfl
  | succ g => rw [parseEntries_succ, parseEntries_succ, skipWs, if_pos hc]

theorem numStop_listRest (t : VList) (rest : List Char) :
    numStop (dumpListRest t ++ rest) = true := by
  cases t <;> rfl

theorem numStop_objRest (t : VObj) (rest : List Char) :
    numStop (dumpObjRest t ++ rest) = true := by
  cases t <;> rfl

theorem dumpObjRest_cons (k : String) (v : PyVal) (t : VObj) :
    dumpObjRest (.cons k v t) = ',' :: ' ' :: dumpEntry k v ++ dumpObjRest t := rfl

theorem dumpVal_dict_cons (k : String) (v : PyVal) (t : VObj) :
    dumpVal (.pyDict (.cons k v t)) = '{' :: dumpEntry k v ++ dumpObjRest t := rfl

theorem parseVal_obracket (f : Nat) (X : List Char) :
    parseVal (f + 1) ('[' :: X) =
      (match skipWs X with
       | ']' :: r => some (.pyList .nil, r)
       | u =>
         match parseItems f u with
         | some (xs, r) => some (.pyList xs, r)
         | none => none) := rfl

theorem parseVal_obrace (f : Nat) (X : List Char) :
    parseVal (f + 1) ('{' :: X) =
      (match skipWs X with
       | '}' :: r => some (.pyDict .nil, r)
       | u =>
         match parseEntries f u with
         | some (ps, r) => some (.pyDict (VObj.ofPairs .nil ps), r)
         | none => none) := rfl

theorem vobj_sizeOf_pos (t : VObj) : 0 < sizeOf t := by
  cases t <;> simp_arith

theorem vlist_sizeOf_pos (t : VList) : 0 < sizeOf t := by
  cases t <;> simp_arith

mutual
/-- The serializer-parser round-trip for one value: parsing a serialized
well-formed value consumes exactly its text. -/
theorem rt_val : ∀ (v : PyVal) (f : Nat) (rest : List Char), PyVal.wf v = true →
    (dumpVal v).length < f → numStop rest = true →
    parseVal f (dumpVal v ++ rest) = some (v, rest)
  | .pyNone, f, rest, _, hf, _ => by
    cases f with
    | zero => simp [dumpVal] at hf
    | succ g => rfl
  | .pyBool true, f, rest, _, hf, _ => by
    cases f with
    | zero => simp [dumpVal] at hf
    | succ g => rfl
  | .pyBool false, f, rest, _, hf, _ => by
    cases f with
    | zero => simp [dumpVal] at hf
    | succ g => rfl
  | .pyInt n, f, rest, _, hf, hr => by
    cases f with
    | zero => exact absurd hf (by omega)
    | succ g => exact parseVal_int g n hr
  | .pyFloat lit, f, rest, hw, hf, hr => by
    cases f with
    | zero => exact absurd hf (by omega)
    | succ g => exact parseVal_float g lit hw hr
  | .pyStr s, f, rest, _, hf, _ => by
    cases f with
    | zero => exact absurd hf (by omega)
    | succ g => exact parseVal_str g s rest
  | .pyList .nil, f, rest, _, hf, _ => by
    cases f with
    | zero => simp [dumpVal] at hf
    | succ g => rfl
  | .pyList (.cons h t), f, rest, hw, hf, hr => by
    cases f with
    | zero => exact absurd hf (by omega)
    | succ g =>
      have hw' : (PyVal.wf h && VList.wf t) = true := hw
      rw [Bool.and_eq_true] at hw'
      rw [show (dumpVal (.pyList (.cons h t)) ++ rest : List Char)
          = '[' :: (dumpVal h ++ (dumpListRest t ++ rest)) from by
        show ('[' :: dumpVal h ++ dumpListRest t) ++ rest = _
        simp]
      rw [parseVal_obracket]
      obtain ⟨c, t2, hct, hws, hbr, hbc⟩ := dumpVal_head h hw'.1
      rw [show (dumpVal h ++ (dumpListRest t ++ rest) : List Char)
          = c :: (t2 ++ (dumpListRest t ++ rest)) from by rw [hct]; rfl]
      rw [skipWs_cons_of_not hws]
      have hlen : (dumpVal h).length + (dumpListRest t).length < g := by
        have : (dumpVal (.pyList (.cons h t))).length
            = 1 + (dumpVal h).length + (dumpListRest t).length := by
          show ('[' :: dumpVal h ++ dumpListRest t : List Char).length = _
          simp
          omega
        omega
      split
      · rename_i r heq
        rw [List.cons.injEq] at heq
        exact absurd heq.1 hbr
      · rw [show (c :: (t2 ++ (dumpListRest t ++ rest)) : List Char)
            = dumpVal h ++ (dumpListRest t ++ rest) from by rw [hct]; rfl]
        rw [rt_items h t g rest hw'.1 hw'.2 hlen hr]
  | .pyDict .nil, f, rest, _, hf, _ => by
    cases f with
    | zero => simp [dumpVal] at hf
    | succ g => rfl
  | .pyDict (.cons k v t), f, rest, hw, hf, hr => by
    cases f with
    | zero => exact absurd hf (by omega)
    | succ g =>
      have hw' : (VObj.nodupKeys (.cons k v t) && VObj.wf (.cons k v t)) = true := hw
      rw [Bool.and_eq_true] at hw'
      have hwv : (PyVal.wf v && VObj.wf t) = true := hw'.2
      rw [Bool.and_eq_true] at hwv
      rw [show (dumpVal (.pyDict (.cons k v t)) ++ rest : List Char)
          = '{' :: (dumpEntry k v ++ (dumpObjRest t ++ rest)) from by
        rw [dumpVal_dict_cons]
        simp]
      rw [parseVal_obrace]
      rw [show (dumpEntry k v ++ (dumpObjRest t ++ rest) : List Char)
          = '"' :: (escText k.data ++ ('"' :: ':' :: ' ' :: dumpVal v ++ (dumpObjRest t ++ rest)))
          from by
        show ('"' :: escText k.data ++ '"' :: ':' :: ' ' :: dumpVal v) ++ _ = _
        simp]
      rw [skipWs_cons_of_not (by decide)]
      have hlen : (dumpEntry k v).length + (dumpObjRest t).length < g := by
        have : (dumpVal (.pyDict (.cons k v t))).length
            = 1 + (dumpEntry k v).length + (dumpObjRest t).length := by
          rw [dumpVal_dict_cons]
          simp
          omega
        omega
      split
      · rename_i r heq
        rw [List.cons.injEq] at heq
        exact absurd heq.1 (by decide)
      · rw [show ('"' :: (escText k.data
              ++ ('"' :: ':' :: ' ' :: dumpVal v ++ (dumpObjRest t ++ rest))) : List Char)
            = dumpEntry k v ++ (dumpObjRest t ++ rest) from by
          show _ = ('"' :: escText k.data ++ '"' :: ':' :: ' ' :: dumpVal v) ++ _
          simp]
        rw [rt_entries k v t g rest hwv.1 hwv.2 hlen hr]
        show some (PyVal.pyDict (VObj.ofPairs .nil (VObj.cons k v t).entries), rest) = _
        rw [ofPairs_entries hw'.1]

termination_by v _ _ _ _ _ => sizeOf v
decreasing_by
  all_goals simp_wf

/-- Round-trip for a serialized non-empty item list: `parseItems` consumes
`item ("," item)* "]"` exactly. -/
theorem rt_items : ∀ (h : PyVal) (t : VList) (f : Nat) (rest : List Char),
    PyVal.wf h = true → VList.wf t = true →
    (dumpVal h).length + (dumpListRest t).length < f → numStop rest = true →
    parseItems f (dumpVal h ++ (dumpListRest t ++ rest)) = some (VList.cons h t, rest)
  | h, t, 0, rest, _, _, hf, _ => by
    obtain ⟨c, t2, hct, -⟩ := dumpVal_head h (by assumption)
    simp [hct] at hf
  | h, t, g + 1, rest, hwh, hwt, hf, hr => by
    have hlh : 1 ≤ (dumpListRest t).length := by cases t <;> simp [dumpListRest]
    rw [parseItems_succ,
      rt_val h g (dumpListRest t ++ rest) hwh (by omega) (numStop_listRest t rest)]
    simp only []
    cases t with
    | nil =>
      rw [show (dumpListRest VList.nil ++ rest : List Char) = ']' :: rest from rfl,
        skipWs_cons_of_not (by decide)]
      rfl
    | cons h2 t2 =>
      have hwt' : (PyVal.wf h2 && VList.wf t2) = true := hwt
      rw [Bool.and_eq_true] at hwt'
      rw [show (dumpListRest (VList.cons h2 t2) ++ rest : List Char)
          = ',' :: ' ' :: (dumpVal h2 ++ (dumpListRest t2 ++ rest)) from by
        show (',' :: ' ' :: dumpVal h2 ++ dumpListRest t2) ++ rest = _
        simp]
      rw [skipWs_cons_of_not (by decide)]
      simp only []
      have hlen2 : (dumpVal h2).length + (dumpListRest t2).length < g := by
        have : (dumpListRest (VList.cons h2 t2)).length
            = 2 + (dumpVal h2).length + (dumpListRest t2).length := by
          show (',' :: ' ' :: dumpVal h2 ++ dumpListRest t2 : List Char).length = _
          simp
          omega
        omega
      rw [show parseItems g (' ' :: (dumpVal h2 ++ (dumpListRest t2 ++ rest)))
          = parseItems g (dumpVal h2 ++ (dumpListRest t2 ++ rest)) from
        parseItems_ws (by decide) g _]
      rw [rt_items h2 t2 g rest hwt'.1 hwt'.2 hlen2 hr]

termination_by h t _ _ _ _ _ _ => sizeOf (VList.cons h t)
decreasing_by
  all_goals simp_wf
  all_goals try omega
  all_goals (subst_vars; simp_wf; try omega)

/-- Round-trip for a serialized non-empty member list: `parseEntries`
consumes `"key": value ("," "key": value)* "}"` exactly, yielding the
members in order. -/
theorem rt_entries : ∀ (k : String) (v : PyVal) (t : VObj) (f : Nat) (rest : List Char),
    PyVal.wf v = true → VObj.wf t = true →
    (dumpEntry k v).length + (dumpObjRest t).length < f → numStop rest = true →
    parseEntries f (dumpEntry k v ++ (dumpObjRest t ++ rest))
      = some ((k, v) :: VObj.entries t, rest)
  | k, v, t, 0, rest, _, _, hf, _ => by
    simp [dumpEntry] at hf
  | k, v, t, g + 1, rest, hwv, hwt, hf, hr => by
    have hlo : 1 ≤ (dumpObjRest t).length := by cases t <;> simp [dumpObjRest]
    have hlv : 1 ≤ (dumpVal v).length := by
      obtain ⟨c, t2, hct, -⟩ := dumpVal_head v hwv
      simp [hct]
    have hle : (dumpVal v).length + 4 ≤ (dumpEntry k v).length := by
      have h1 := escText_length k.data
      simp only [dumpEntry, List.length_cons, List.length_append]
      omega
    rw [parseEntries_succ]
    rw [show (dumpEntry k v ++ (dumpObjRest t ++ rest) : List Char)
        = '"' :: (escText k.data ++ '"' :: (':' :: ' ' :: dumpVal v ++ (dumpObjRest t ++ rest)))
        from by
      show ('"' :: escText k.data ++ '"' :: ':' :: ' ' :: dumpVal v) ++ _ = _
      simp]
    rw [skipWs_cons_of_not (by decide)]
    simp only []
    rw [strBody_escText k.data _ _ (by
      have h1 := escText_length k.data
      simp only [List.length_append, List.length_cons]
      omega)]
    simp only []
    rw [show (':' :: ' ' :: dumpVal v ++ (dumpObjRest t ++ rest) : List Char)
        = ':' :: (' ' :: (dumpVal v ++ (dumpObjRest t ++ rest))) from by simp]
    rw [skipWs_cons_of_not (by decide)]
    simp only []
    rw [parseVal_ws (by decide) g _,
      rt_val v g (dumpObjRest t ++ rest) hwv (by omega) (numStop_objRest t rest)]
    simp only []
    cases t with
    | nil =>
      rw [show (dumpObjRest VObj.nil ++ rest : List Char) = '}' :: rest from rfl,
        skipWs_cons_of_not (by decide)]
      rw [mkData]
      rfl
    | cons k2 v2 t2 =>
      have hwt' : (PyVal.wf v2 && VObj.wf t2) = true := hwt
      rw [Bool.and_eq_true] at hwt'
      rw [show (dumpObjRest (VObj.cons k2 v2 t2) ++ rest : List Char)
          = ',' :: ' ' :: (dumpEntry k2 v2 ++ (dumpObjRest t2 ++ rest)) from by
        rw [dumpObjRest_cons]
        simp]
      rw [skipWs_cons_of_not (by decide)]
      simp only []
      have hlen2 : (dumpEntry k2 v2).length + (dumpObjRest t2).length < g := by
        have : (dumpObjRest (VObj.cons k2 v2 t2)).length
            = 2 + (dumpEntry k2 v2).length + (dumpObjRest t2).length := by
          rw [dumpObjRest_cons]
          simp
          omega
        omega
      rw [show parseEntries g (' ' :: (dumpEntry k2 v2 ++ (dumpObjRest t2 ++ rest)))
          = parseEntries g (dumpEntry k2 v2 ++ (dumpObjRest t2 ++ rest)) from
        parseEntries_ws (by decide) g _]
      rw [rt_entries k2 v2 t2 g rest hwt'.1 hwt'.2 hlen2 hr]
      rw [mkData]
      rfl
termination_by k v t _ _ _ _ _ _ => sizeOf (VObj.cons k v t)
decreasing_by
  all_goals simp_wf
  all_goals try omega
  all_goals (subst_vars; simp_wf; try omega)
end

/-- The serialization round-trip: `json.loads (json.dumps v) = some v` for
every well-formed value. -/
theorem loads_dumps {v : PyVal} (hw : PyVal.wf v = true) :
    json.loads (json.dumps v) = some v := by
  unfold json.loads json.dumps
  rw [show (String.mk (dumpVal v)).data = dumpVal v from rfl]
  have hres := rt_val v (2 * (dumpVal v).length + 8) [] hw (by omega) rfl
  rw [show (dumpVal v ++ [] : List Char) = dumpVal v from by simp] at hres
  rw [hres]
  rfl

/-! ## Dict operation laws -/

theorem lookup_set_self : ∀ (m : VObj) (k : String) (v : PyVal),
    (m.set k v).lookup k = some v
  | .nil, k, v => by simp [VObj.set, VObj.lookup]
  | .cons k0 v0 t, k, v => by
    by_cases h : k0 = k
    · simp [VObj.set, if_pos h, VObj.lookup, h]
    · simp [VObj.set, if_neg h, VObj.lookup, h, lookup_set_self t k v]

theorem lookup_set_other : ∀ (m : VObj) {k k' : String} (v : PyVal), k' ≠ k →
    (m.set k v).lookup k' = m.lookup k'
  | .nil, k, k', v, hne => by
    simp only [VObj.set, VObj.lookup]
    rw [if_neg (fun h => hne h.symm)]
  | .cons k0 v0 t, k, k', v, hne => by
    by_cases h : k0 = k
    · subst h
      simp only [VObj.set, if_pos rfl, VObj.lookup]
      rw [if_neg (fun h => hne h.symm), if_neg (fun h => hne h.symm)]
    · simp only [VObj.set, if_neg h, VObj.lookup]
      by_cases h' : k0 = k'
      · rw [if_pos h', if_pos h']
      · rw [if_neg h', if_neg h', lookup_set_other t v hne]

theorem hasKey_lookup : ∀ (m : VObj) {k : String}, m.hasKey k = true →
    ∃ v, m.lookup k = some v
  | .nil, k, h => by simp [VObj.hasKey] at h
  | .cons k0 v0 t, k, h => by
    by_cases h0 : k0 = k
    · exact ⟨v0, by simp [VObj.lookup, if_pos h0]⟩
    · simp only [VObj.hasKey, Bool.or_eq_true, decide_eq_true_eq] at h
      rcases h with h | h
      · exact absurd h h0
      · obtain ⟨v, hv⟩ := hasKey_lookup t h
        exact ⟨v, by simp [VObj.lookup, if_neg h0, hv]⟩

theorem lookup_hasKey : ∀ (m : VObj) {k : String} {v : PyVal}, m.lookup k = some v →
    m.hasKey k = true
  | .nil, k, v, h => by simp [VObj.lookup] at h
  | .cons k0 v0 t, k, v, h => by
    by_cases h0 : k0 = k
    · simp [VObj.hasKey, h0]
    · rw [VObj.lookup, if_neg h0] at h
      simp [VObj.hasKey, lookup_hasKey t h]

theorem hasKey_false_lookup : ∀ (m : VObj) {k : String}, m.hasKey k = false →
    m.lookup k = none
  | .nil, k, h => rfl
  | .cons k0 v0 t, k, h => by
    simp only [VObj.hasKey, Bool.or_eq_false_iff, decide_eq_false_iff_not] at h
    rw [VObj.lookup, if_neg h.1, hasKey_false_lookup t h.2]

theorem hasKey_set_existing {m : VObj} {f : String} (hm : m.hasKey f = true)
    (w : PyVal) (k : String) : (m.set f w).hasKey k = m.hasKey k := by
  rw [hasKey_set]
  by_cases h : f = k
  · subst h
    simp [hm]
  · simp [h]

/-! ## The Format Stage's field bookkeeping -/

theorem fill_hasKey_mono {r : VObj} {k : String} (h : r.hasKey k = true) :
    ∀ fields : List String, (fillMissing r fields).hasKey k = true := by
  intro fields
  induction fields generalizing r with
  | nil => exact h
  | cons f0 t ih =>
    rw [fillMissing]
    by_cases h0 : r.hasKey f0 = true
    · rw [if_pos h0]
      exact ih h
    · rw [if_neg h0]
      refine ih ?_
      rw [hasKey_set]
      simp [h]

theorem fill_hasKey_of_mem {f : String} : ∀ (fields : List String) (r : VObj),
    f ∈ fields → (fillMissing r fields).hasKey f = true := by
  intro fields
  induction fields with
  | nil => intro r h; simp at h
  | cons f0 t ih =>
    intro r hmem
    rw [fillMissing]
    rcases List.mem_cons.mp hmem with rfl | hmem
    · by_cases h0 : r.hasKey f = true
      · rw [if_pos h0]
        exact fill_hasKey_mono h0 t
      · rw [if_neg h0]
        refine fill_hasKey_mono ?_ t
        rw [hasKey_set]
        simp
    · by_cases h0 : r.hasKey f0 = true
      · rw [if_pos h0]
        exact ih r hmem
      · rw [if_neg h0]
        exact ih _ hmem

theorem fill_lookup_present {r : VObj} {f : String} (h : r.hasKey f = true) :
    ∀ fields : List String, (fillMissing r fields).lookup f = r.lookup f := by
  intro fields
  induction fields generalizing r with
  | nil => rfl
  | cons f0 t ih =>
    rw [fillMissing]
    by_cases h0 : r.hasKey f0 = true
    · rw [if_pos h0]
      exact ih h
    · rw [if_neg h0]
      have hne : f ≠ f0 := by
        intro he
        subst he
        rw [h] at h0
        exact h0 rfl
      rw [ih (by rw [hasKey_set]; simp [h]), lookup_set_other r PyVal.pyNone hne]

theorem fill_lookup_absent {f : String} : ∀ (fields : List String) (r : VObj),
    f ∈ fields → r.hasKey f = false →
    (fillMissing r fields).lookup f = some .pyNone := by
  intro fields
  induction fields with
  | nil => intro r h; simp at h
  | cons f0 t ih =>
    intro r hmem habs
    rw [fillMissing]
    rcases List.mem_cons.mp hmem with rfl | hmem
    · rw [if_neg (by simp [habs])]
      rw [fill_lookup_present (by rw [hasKey_set]; simp) t, lookup_set_self]
    · by_cases h0 : r.hasKey f0 = true
      · rw [if_pos h0]
        exact ih r hmem habs
      · rw [if_neg h0]
        by_cases hff : f = f0
        · subst hff
          rw [fill_lookup_present (by rw [hasKey_set]; simp) t, lookup_set_self]
        · refine ih _ hmem ?_
          have hne : f0 ≠ f := fun h => hff h.symm
          rw [hasKey_set]
          simp [habs, hne]

theorem canonField_hasKey (r : VObj) (f' k : String) :
    (canonField r f').hasKey k = r.hasKey k := by
  unfold canonField
  cases hl : r.lookup f' with
  | none => rfl
  | some v =>
    have hk := lookup_hasKey r hl
    cases v with
    | pyNone => rfl
    | pyDict m => exact hasKey_set_existing hk _ k
    | pyStr s =>
      simp only []
      cases json.loads s with
      | none => exact hasKey_set_existing hk _ k
      | some _ => rfl
    | pyBool b => rfl
    | pyInt n => rfl
    | pyFloat lit => rfl
    | pyList xs => rfl

theorem canonField_other {r : VObj} {f f' : String} (h : f ≠ f') :
    (canonField r f').lookup f = r.lookup f := by
  unfold canonField
  cases hl : r.lookup f' with
  | none => rfl
  | some v =>
    cases v with
    | pyNone => rfl
    | pyDict m => exact lookup_set_other r _ h
    | pyStr s =>
      simp only []
      cases json.loads s with
      | none => exact lookup_set_other r _ h
      | some _ => rfl
    | pyBool b => rfl
    | pyInt n => rfl
    | pyFloat lit => rfl
    | pyList xs => rfl

theorem canonFields_hasKey : ∀ (fields : List String) (r : VObj) (k : String),
    (canonFields r fields).hasKey k = r.hasKey k
  | [], r, k => rfl
  | f :: t, r, k => by
    rw [canonFields, canonFields_hasKey t, canonField_hasKey]

theorem canonField_none {r : VObj} {f : String} (h : r.lookup f = some .pyNone) :
    canonField r f = r := by
  unfold canonField
  rw [h]

theorem canonFields_lookup_none : ∀ (fields : List String) (r : VObj) (f : String),
    r.lookup f = some .pyNone → (canonFields r fields).lookup f = some .pyNone
  | [], r, f, h => h
  | f0 :: t, r, f, h => by
    rw [canonFields]
    by_cases hff : f = f0
    · subst hff
      rw [canonField_none h]
      exact canonFields_lookup_none t r f h
    · refine canonFields_lookup_none t _ f ?_
      rw [canonField_other hff, h]

/-- Master description of what `canonField` leaves at its own field. -/
theorem canonField_lookup_self (r : VObj) (f : String) :
    (canonField r f).lookup f =
      match r.lookup f with
      | none => none
      | some .pyNone => some .pyNone
      | some (.pyDict m) => some (.pyStr (json.dumps (.pyDict m)))
      | some (.pyStr s) =>
        match json.loads s with
        | some _ => some (.pyStr s)
        | none => some (.pyStr (json.dumps (.pyDict (.cons "raw_value" (.pyStr s) .nil))))
      | some v => some v := by
  unfold canonField
  cases hl : r.lookup f with
  | none => exact hl
  | some v =>
    cases v with
    | pyNone => exact hl
    | pyDict m => exact lookup_set_self r f _
    | pyStr s =>
      simp only []
      cases json.loads s with
      | none => exact lookup_set_self r f _
      | some _ => exact hl
    | pyBool b => exact hl
    | pyInt n => exact hl
    | pyFloat lit => exact hl
    | pyList xs => exact hl

/-- The Format Stage's value at a JSON-designated field is `canonField`'s
value there, applied to the filled record. -/
theorem process_lookup_json (r : VObj) {f : String}
    (hf : f ∈ FormatForBigQuery.JSON_FIELDS) :
    (FormatForBigQuery.process r).lookup f =
      (canonField (fillMissing r expected_fields) f).lookup f := by
  simp only [FormatForBigQuery.JSON_FIELDS, List.mem_cons, List.not_mem_nil,
    or_false] at hf
  unfold FormatForBigQuery.process FormatForBigQuery.JSON_FIELDS
  rw [canonFields, canonFields, canonFields]
  rcases hf with rfl | rfl
  · exact canonField_other (by decide)
  · rw [canonField_lookup_self, canonField_lookup_self,
        canonField_other (show ("response" : String) ≠ "request" by decide)]

/-! ## The Masking Stage on dict records -/

/-- On a dict record, with a masking service that always answers, the PII
loop succeeds and returns a dict; a designated field that is absent, falsy,
or not a string keeps its value (and absence stays absence). -/
theorem maskFields_dict (dlp : String → Except String String) (m : VObj)
    (hdlp : ∀ s, ∃ t, dlp s = .ok t) :
    ∃ m' : VObj,
      maskFields dlp (.pyDict m) MaskPIIFn.FIELDS_TO_MASK = .ok (.pyDict m') ∧
      (∀ v, m.lookup "userIamPrincipal" = some v →
        (pyTruthy v = false ∨ (∀ s, v ≠ .pyStr s)) →
        m'.lookup "userIamPrincipal" = some v) ∧
      (m.hasKey "userIamPrincipal" = false → m' = m) := by
  by_cases hk : m.hasKey "userIamPrincipal" = true
  · obtain ⟨v, hv⟩ := hasKey_lookup m hk
    by_cases ht : pyTruthy v = true
    · cases v with
      | pyStr s =>
        have hs : ¬ s = "" := by
          simp only [pyTruthy, bne_iff_ne, ne_eq] at ht
          exact ht
        obtain ⟨t, hts⟩ := hdlp s
        refine ⟨m.set "userIamPrincipal" (.pyStr t), ?_, ?_, ?_⟩
        · simp only [MaskPIIFn.FIELDS_TO_MASK, maskFields, pyContains, pyGetItem, hv,
            MaskPIIFn._mask_text, pySetItem, bind, Except.bind, hk, if_true, hs, if_false,
            ht, hts, Except.map]
        · intro v0 hv0 hcond
          rw [hv] at hv0
          injection hv0 with h0
          rcases hcond with hf | hns
          · rw [← h0, ht] at hf
            cases hf
          · exact absurd h0.symm (hns s)
        · intro h
          rw [hk] at h
          cases h
      | pyNone =>
        rw [pyTruthy] at ht
        cases ht
      | pyBool b =>
        refine ⟨m.set "userIamPrincipal" (.pyBool b), ?_, ?_, ?_⟩
        · simp only [MaskPIIFn.FIELDS_TO_MASK, maskFields, pyContains, pyGetItem, hv,
            MaskPIIFn._mask_text, pySetItem, bind, Except.bind, hk, if_true, ht]
        · intro v0 hv0 _
          rw [hv] at hv0
          rw [lookup_set_self, hv0]
        · intro h
          rw [hk] at h
          cases h
      | pyInt n =>
        refine ⟨m.set "userIamPrincipal" (.pyInt n), ?_, ?_, ?_⟩
        · simp only [MaskPIIFn.FIELDS_TO_MASK, maskFields, pyContains, pyGetItem, hv,
            MaskPIIFn._mask_text, pySetItem, bind, Except.bind, hk, if_true, ht]
        · intro v0 hv0 _
          rw [hv] at hv0
          rw [lookup_set_self, hv0]
        · intro h
          rw [hk] at h
          cases h
      | pyFloat lit =>
        refine ⟨m.set "userIamPrincipal" (.pyFloat lit), ?_, ?_, ?_⟩
        · simp only [MaskPIIFn.FIELDS_TO_MASK, maskFields, pyContains, pyGetItem, hv,
            MaskPIIFn._mask_text, pySetItem, bind, Except.bind, hk, if_true, ht]
        · intro v0 hv0 _
          rw [hv] at hv0
          rw [lookup_set_self, hv0]
        · intro h
          rw [hk] at h
          cases h
      | pyList xs =>
        refine ⟨m.set "userIamPrincipal" (.pyList xs), ?_, ?_, ?_⟩
        · simp only [MaskPIIFn.FIELDS_TO_MASK, maskFields, pyContains, pyGetItem, hv,
            MaskPIIFn._mask_text, pySetItem, bind, Except.bind, hk, if_true, ht]
        · intro v0 hv0 _
          rw [hv] at hv0
          rw [lookup_set_self, hv0]
        · intro h
          rw [hk] at h
          cases h
      | pyDict m2 =>
        refine ⟨m.set "userIamPrincipal" (.pyDict m2), ?_, ?_, ?_⟩
        · simp only [MaskPIIFn.FIELDS_TO_MASK, maskFields, pyContains, pyGetItem, hv,
            MaskPIIFn._mask_text, pySetItem, bind, Except.bind, hk, if_true, ht]
        · intro v0 hv0 _
          rw [hv] at hv0
          rw [lookup_set_self, hv0]
        · intro h
          rw [hk] at h
          cases h
    · refine ⟨m, ?_, fun v0 hv0 _ => hv0, fun _ => rfl⟩
      simp only [MaskPIIFn.FIELDS_TO_MASK, maskFields, pyContains, pyGetItem, hv,
        bind, Except.bind, hk, if_true, ht, if_false]
      rfl
  · refine ⟨m, ?_, fun v0 hv0 _ => hv0, fun _ => rfl⟩
    have hk' : m.hasKey "userIamPrincipal" = false := by
      cases h : m.hasKey "userIamPrincipal" with
      | false => rfl
      | true => exact absurd h hk
    simp only [MaskPIIFn.FIELDS_TO_MASK, maskFields, pyContains, bind, Except.bind,
      hk', if_false]
    rfl

/-! # The claims -/

/-- C1: the Masking Stage does not, in fact, convert every failure into a
dead-letter ErrorRecord: the `except` handler rebuilds `original_data` by
decoding the raw bytes again (line 122), so undecodable bytes such as
`b"\xff"` raise `UnicodeDecodeError` out of the handler itself.  The
decodable part of the claim does hold: `b"not-json"` yields a dead-letter
ErrorRecord with `error_type = MASKING_ERROR` and
`original_data = "not-json"`. -/
theorem C1_decode_failure_raises :
    MaskPIIFn.process dlpEcho "T" (.bytes [255]) = .raised "UnicodeDecodeError" ∧
    MaskPIIFn.process dlpEcho "T" (.bytes [110, 111, 116, 45, 106, 115, 111, 110]) =
      .deadLetter ⟨"not-json", "Expecting value", MASKING_ERROR, "T"⟩ :=
  ⟨rfl, rfl⟩

/-- C2: for every sink-failure shape — tagged report, triple, pair, short
list, or opaque value — the Write-Result Handler yields exactly one
ErrorRecord with `error_type = SINK_WRITE_ERROR`, extracting row and
errors from whichever shape matches first and marking unmatched shapes
"Unknown error format". -/
theorem C2_sink_handler_shapes (now : String) (sf : SinkFailure) :
    (HandleBigQueryErrors.process now sf).error_type = SINK_WRITE_ERROR ∧
    (∀ row errs srepr, sf = .tagged row errs srepr →
      HandleBigQueryErrors.process now sf =
        bqErrorRecord now row (match errs with | some e => pyStrOf e | none => srepr)) ∧
    (∀ a b c, sf = .seq [a, b, c] →
      HandleBigQueryErrors.process now sf = bqErrorRecord now b (pyStrOf c)) ∧
    (∀ a b, sf = .seq [a, b] →
      HandleBigQueryErrors.process now sf = bqErrorRecord now a (pyStrOf b)) ∧
    (∀ l, sf = .seq l → l.length < 2 →
      HandleBigQueryErrors.process now sf =
        bqErrorRecord now (.pyList (VList.ofList l)) "Unknown error format") ∧
    (∀ v, sf = .other v →
      HandleBigQueryErrors.process now sf =
        bqErrorRecord now v "Unknown error format") := by
  refine ⟨?_, ?_, ?_, ?_, ?_, ?_⟩
  · cases sf with
    | tagged row errs srepr => rfl
    | other v => rfl
    | seq l =>
      unfold HandleBigQueryErrors.process
      simp only []
      by_cases h2 : 2 ≤ l.length
      · rw [if_pos h2]
        by_cases h3 : l.length = 3
        · rw [if_pos h3]
          rfl
        · rw [if_neg h3]
          rfl
      · rw [if_neg h2]
        rfl
  · intro row errs srepr h
    subst h
    rfl
  · intro a b c h
    subst h
    rfl
  · intro a b h
    subst h
    rfl
  · intro l h hlt
    subst h
    unfold HandleBigQueryErrors.process
    simp only []
    rw [if_neg (by omega)]
  · intro v h
    subst h
    rfl

theorem C2_witness :
    (HandleBigQueryErrors.process "T" (.seq [.pyInt 1, .pyInt 2, .pyInt 3])).error_type
        = SINK_WRITE_ERROR ∧
    HandleBigQueryErrors.process "T" (.seq [.pyInt 1, .pyInt 2, .pyInt 3])
        = bqErrorRecord "T" (.pyInt 2) (pyStrOf (.pyInt 3)) :=
  ⟨(C2_sink_handler_shapes "T" (.seq [.pyInt 1, .pyInt 2, .pyInt 3])).1,
   (C2_sink_handler_shapes "T" (.seq [.pyInt 1, .pyInt 2, .pyInt 3])).2.2.1
     (.pyInt 1) (.pyInt 2) (.pyInt 3) rfl⟩

/-- C3 (corrected): the claimed invariant fails — `original_data` can be
empty: the empty byte string decodes to `""`, its JSON parse fails, and
the dead-letter ErrorRecord carries `original_data = ""`. -/
theorem C3_counterexample :
    MaskPIIFn.process dlpEcho "T" (.bytes []) =
      .deadLetter ⟨"", "Expecting value", MASKING_ERROR, "T"⟩ :=
  rfl

/-- C3 (amended): what does hold of ErrorRecord construction: the
Write-Result Handler always yields exactly one record built by
`bqErrorRecord` (its construction is total); the Masking Stage handler
never raises on structured input and stamps `original_data` with the
textual form of the whole input (`str(element)`), and on decodable bytes
it never raises and stamps the decoded text — but that text may be
empty. -/
theorem C3_errorRecord_best_effort (dlp : String → Except String String) (now : String) :
    (∀ sf : SinkFailure, ∃ row msg,
        HandleBigQueryErrors.process now sf = bqErrorRecord now row msg) ∧
    (∀ v : PyVal, ∀ msg, MaskPIIFn.process dlp now (.val v) ≠ .raised msg) ∧
    (∀ v er, MaskPIIFn.process dlp now (.val v) = .deadLetter er →
        er.original_data = pyStrOf v) ∧
    (∀ bs s, bytesDecode bs = some s →
        (∀ msg, MaskPIIFn.process dlp now (.bytes bs) ≠ .raised msg) ∧
        (∀ er, MaskPIIFn.process dlp now (.bytes bs) = .deadLetter er →
          er.original_data = s)) := by
  refine ⟨?_, ?_, ?_, ?_⟩
  · intro sf
    cases sf with
    | tagged row errs srepr =>
      exact ⟨row, _, rfl⟩
    | seq l =>
      unfold HandleBigQueryErrors.process
      simp only []
      by_cases h2 : 2 ≤ l.length
      · rw [if_pos h2]
        by_cases h3 : l.length = 3
        · rw [if_pos h3]
          exact ⟨_, _, rfl⟩
        · rw [if_neg h3]
          exact ⟨_, _, rfl⟩
      · rw [if_neg h2]
        exact ⟨_, _, rfl⟩
    | other v =>
      exact ⟨v, _, rfl⟩
  · intro v msg h
    unfold MaskPIIFn.process at h
    cases hpt : MaskPIIFn.processTry dlp now (.val v) with
    | ok r =>
      rw [hpt] at h
      exact MaskOutput.noConfusion h
    | error e =>
      rw [hpt] at h
      exact MaskOutput.noConfusion h
  · intro v er h
    unfold MaskPIIFn.process at h
    cases hpt : MaskPIIFn.processTry dlp now (.val v) with
    | ok r =>
      rw [hpt] at h
      exact MaskOutput.noConfusion h
    | error e =>
      rw [hpt] at h
      simp only [] at h
      injection h with h'
      subst h'
      rfl
  · intro bs s hdec
    constructor
    · intro msg h
      unfold MaskPIIFn.process at h
      cases hpt : MaskPIIFn.processTry dlp now (.bytes bs) with
      | ok r =>
        rw [hpt] at h
        exact MaskOutput.noConfusion h
      | error e =>
        rw [hpt] at h
        simp only [hdec] at h
        exact MaskOutput.noConfusion h
    · intro er h
      unfold MaskPIIFn.process at h
      cases hpt : MaskPIIFn.processTry dlp now (.bytes bs) with
      | ok r =>
        rw [hpt] at h
        exact MaskOutput.noConfusion h
      | error e =>
        rw [hpt] at h
        simp only [hdec] at h
        injection h with h'
        subst h'
        rfl

theorem C3_witness :
    MaskPIIFn.process dlpEcho "T" (.val (.pyInt 7)) ≠ .raised "TypeError" ∧
    (∃ row msg, HandleBigQueryErrors.process "T" (.other (.pyInt 7)) =
        bqErrorRecord "T" row msg) ∧
    (ErrorRecord.mk "7" "TypeError: argument of type is not iterable"
        MASKING_ERROR "T").original_data = pyStrOf (.pyInt 7) ∧
    (ErrorRecord.mk "0" "TypeError: argument of type is not iterable"
        MASKING_ERROR "T").original_data = "0" :=
  ⟨(C3_errorRecord_best_effort dlpEcho "T").2.1 (.pyInt 7) "TypeError",
   (C3_errorRecord_best_effort dlpEcho "T").1 (.other (.pyInt 7)),
   (C3_errorRecord_best_effort dlpEcho "T").2.2.1 (.pyInt 7) _ rfl,
   ((C3_errorRecord_best_effort dlpEcho "T").2.2.2 [48] "0" rfl).2 _ rfl⟩

/-- C4: the Format Stage is total (it is a plain function on records) and
its output contains every expected field — every name the code's
expected-fields list declares (C8 identifies that list with the sink
schema's names) — with value null when absent on input; it never removes
a field that was present. -/
theorem C4_format_fields_total (r : VObj) :
    (∀ f, f ∈ expected_fields → (FormatForBigQuery.process r).hasKey f = true) ∧
    (∀ k, r.hasKey k = true → (FormatForBigQuery.process r).hasKey k = true) ∧
    (∀ f, f ∈ expected_fields → r.hasKey f = false →
      (FormatForBigQuery.process r).lookup f = some .pyNone) := by
  refine ⟨?_, ?_, ?_⟩
  · intro f hf
    unfold FormatForBigQuery.process
    rw [canonFields_hasKey]
    exact fill_hasKey_of_mem expected_fields r hf
  · intro k hk
    unfold FormatForBigQuery.process
    rw [canonFields_hasKey]
    exact fill_hasKey_mono hk expected_fields
  · intro f hf habs
    unfold FormatForBigQuery.process
    exact canonFields_lookup_none _ _ f (fill_lookup_absent expected_fields r hf habs)

theorem C4_witness :
    (FormatForBigQuery.process .nil).hasKey "serviceLabel" = true ∧
    (FormatForBigQuery.process .nil).lookup "serviceLabel" = some .pyNone :=
  ⟨(C4_format_fields_total .nil).1 "serviceLabel" (by decide),
   (C4_format_fields_total .nil).2.2 "serviceLabel" (by decide) rfl⟩

/-- C5: a JSON-designated field holding a (well-formed) dict leaves the
Format Stage as the string `json.dumps` produced for it, and that string
parses back to the very same dict. -/
theorem C5_json_dict_roundtrip (r : VObj) (f : String) (m : VObj)
    (hf : f ∈ FormatForBigQuery.JSON_FIELDS)
    (hv : r.lookup f = some (.pyDict m))
    (hw : PyVal.wf (.pyDict m) = true) :
    (FormatForBigQuery.process r).lookup f =
      some (.pyStr (json.dumps (.pyDict m))) ∧
    json.loads (json.dumps (.pyDict m)) = some (.pyDict m) := by
  have h1 : (fillMissing r expected_fields).lookup f = some (.pyDict m) := by
    rw [fill_lookup_present (lookup_hasKey r hv) expected_fields, hv]
  refine ⟨?_, loads_dumps hw⟩
  rw [process_lookup_json r hf, canonField_lookup_self, h1]

theorem C5_witness :
    (FormatForBigQuery.process
        (.cons "request" (.pyDict (.cons "a" (.pyInt 1) .nil)) .nil)).lookup "request" =
      some (.pyStr (json.dumps (.pyDict (.cons "a" (.pyInt 1) .nil)))) ∧
    json.loads (json.dumps (.pyDict (.cons "a" (.pyInt 1) .nil))) =
      some (.pyDict (.cons "a" (.pyInt 1) .nil)) :=
  C5_json_dict_roundtrip _ "request" _ (by decide) rfl rfl

/-- C6: a JSON-designated field holding a string that fails to parse is
replaced by the serialized wrapper `{"raw_value": s}` — itself valid JSON
that parses back to the wrapper dict holding the original string — while
a string that parses as JSON is kept unchanged. -/
theorem C6_string_validation (r : VObj) (f s : String)
    (hf : f ∈ FormatForBigQuery.JSON_FIELDS)
    (hv : r.lookup f = some (.pyStr s)) :
    (json.loads s = none →
      (FormatForBigQuery.process r).lookup f =
        some (.pyStr (json.dumps (.pyDict (.cons "raw_value" (.pyStr s) .nil)))) ∧
      json.loads (json.dumps (.pyDict (.cons "raw_value" (.pyStr s) .nil))) =
        some (.pyDict (.cons "raw_value" (.pyStr s) .nil))) ∧
    (∀ v, json.loads s = some v →
      (FormatForBigQuery.process r).lookup f = some (.pyStr s)) := by
  have h1 : (fillMissing r expected_fields).lookup f = some (.pyStr s) := by
    rw [fill_lookup_present (lookup_hasKey r hv) expected_fields, hv]
  constructor
  · intro hnone
    refine ⟨?_, loads_dumps rfl⟩
    rw [process_lookup_json r hf, canonField_lookup_self, h1]
    simp only []
    rw [hnone]
  · intro v hsome
    rw [process_lookup_json r hf, canonField_lookup_self, h1]
    simp only []
    rw [hsome]

theorem C6_witness :
    ((FormatForBigQuery.process (.cons "response" (.pyStr "oops") .nil)).lookup "response" =
      some (.pyStr (json.dumps (.pyDict (.cons "raw_value" (.pyStr "oops") .nil)))) ∧
    json.loads (json.dumps (.pyDict (.cons "raw_value" (.pyStr "oops") .nil))) =
      some (.pyDict (.cons "raw_value" (.pyStr "oops") .nil))) ∧
    (FormatForBigQuery.process (.cons "request" (.pyStr "{}") .nil)).lookup "request" =
      some (.pyStr "{}") :=
  ⟨(C6_string_validation (.cons "response" (.pyStr "oops") .nil) "response" "oops"
      (by decide) rfl).1 rfl,
   (C6_string_validation (.cons "request" (.pyStr "{}") .nil) "request" "{}"
      (by decide) rfl).2 (.pyDict .nil) rfl⟩

/-- C7 (corrected): an input that merely decodes successfully need not
reach the success channel — `b"3"` decodes and parses, but the PII loop's
`in` test on the non-dict record raises TypeError and the element is
dead-lettered. -/
theorem C7_counterexample :
    decodeElement (.bytes [51]) = .ok (.pyInt 3) ∧
    MaskPIIFn.process dlpEcho "T" (.bytes [51]) =
      .deadLetter ⟨"3", "TypeError: argument of type is not iterable",
        MASKING_ERROR, "T"⟩ :=
  ⟨rfl, rfl⟩

/-- C7 (amended): an input that decodes successfully to a dict, under a
masking service that always answers, is emitted on the success channel as
a dict stamped `_masked_at = now` and `_masking_status = "SUCCESS"`; a
designated PII field whose value is absent, falsy, or not a string keeps
its value (and absence stays absence). -/
theorem C7_mask_success (dlp : String → Except String String) (now : String)
    (el : PyElem) (m : VObj)
    (hdec : decodeElement el = .ok (.pyDict m))
    (hdlp : ∀ s, ∃ t, dlp s = .ok t) :
    ∃ m' : VObj,
      MaskPIIFn.process dlp now el = .masked (.pyDict m') ∧
      m'.lookup "_masked_at" = some (.pyStr now) ∧
      m'.lookup "_masking_status" = some (.pyStr "SUCCESS") ∧
      (∀ v, m.lookup "userIamPrincipal" = some v →
        (pyTruthy v = false ∨ (∀ s, v ≠ .pyStr s)) →
        m'.lookup "userIamPrincipal" = some v) ∧
      (m.hasKey "userIamPrincipal" = false →
        m'.hasKey "userIamPrincipal" = false) := by
  obtain ⟨m1, hmf, hpass, habs⟩ := maskFields_dict dlp m hdlp
  refine ⟨(m1.set "_masked_at" (.pyStr now)).set "_masking_status" (.pyStr "SUCCESS"),
    ?_, ?_, ?_, ?_, ?_⟩
  · unfold MaskPIIFn.process MaskPIIFn.processTry
    rw [hdec]
    simp only [bind, Except.bind]
    rw [hmf]
    simp only [pySetItem]
  · rw [lookup_set_other _ _ (by decide), lookup_set_self]
  · rw [lookup_set_self]
  · intro v hv hcond
    rw [lookup_set_other _ _ (by decide), lookup_set_other _ _ (by decide)]
    exact hpass v hv hcond
  · intro h
    rw [habs h, hasKey_set, hasKey_set, h]
    decide

theorem C7_witness :
    ∃ m' : VObj,
      MaskPIIFn.process dlpEcho "T" (.bytes [123, 125]) = .masked (.pyDict m') ∧
      m'.lookup "_masked_at" = some (.pyStr "T") ∧
      m'.lookup "_masking_status" = some (.pyStr "SUCCESS") ∧
      (∀ v, VObj.nil.lookup "userIamPrincipal" = some v →
        (pyTruthy v = false ∨ (∀ s, v ≠ .pyStr s)) →
        m'.lookup "userIamPrincipal" = some v) ∧
      (VObj.nil.hasKey "userIamPrincipal" = false →
        m'.hasKey "userIamPrincipal" = false) :=
  C7_mask_success dlpEcho "T" (.bytes [123, 125]) .nil rfl (fun s => ⟨s, rfl⟩)

/-- C8: the Format Stage's expected-fields list is exactly the list of
field names the sink table schema declares. -/
theorem C8_schema_alignment :
    expected_fields = table_schema.map SchemaField.name :=
  rfl

/-- C9: a list of length four or more reaching the Write-Result Handler
takes the pair branch: row is its first element, the error message comes
from its second, and the remaining elements are ignored — it is not routed
to the opaque fallback. -/
theorem C9_long_list_pair_shape (now : String) (a b c d : PyVal) (rest : List PyVal) :
    HandleBigQueryErrors.process now (.seq (a :: b :: c :: d :: rest)) =
      bqErrorRecord now a (pyStrOf b) := by
  unfold HandleBigQueryErrors.process
  simp only []
  rw [if_pos (by simp), if_neg (by simp)]
  rfl

/-- C10: a JSON-designated field holding a non-null value that is neither
a dict nor a string leaves the Format Stage completely unchanged. -/
theorem C10_other_values_unchanged (r : VObj) (f : String) (v : PyVal)
    (hf : f ∈ FormatForBigQuery.JSON_FIELDS)
    (hv : r.lookup f = some v)
    (hn : v ≠ .pyNone) (hd : ∀ m, v ≠ .pyDict m) (hs : ∀ s, v ≠ .pyStr s) :
    (FormatForBigQuery.process r).lookup f = some v := by
  have h1 : (fillMissing r expected_fields).lookup f = some v := by
    rw [fill_lookup_present (lookup_hasKey r hv) expected_fields, hv]
  rw [process_lookup_json r hf, canonField_lookup_self, h1]
  cases v with
  | pyNone => exact absurd rfl hn
  | pyDict m => exact absurd rfl (hd m)
  | pyStr s => exact absurd rfl (hs s)
  | pyBool b => rfl
  | pyInt n => rfl
  | pyFloat lit => rfl
  | pyList xs => rfl

theorem C10_witness :
    (FormatForBigQuery.process
        (.cons "request" (.pyList (.cons (.pyInt 1) .nil)) .nil)).lookup "request" =
      some (.pyList (.cons (.pyInt 1) .nil)) :=
  C10_other_values_unchanged _ "request" _ (by decide) rfl
    (fun h => PyVal.noConfusion h) (fun m h => PyVal.noConfusion h)
    (fun s h => PyVal.noConfusion h)
